import Mathlib

/- Verification development for the coroc coroutine compiler
   (package compiler: compile.go together with the unsupported-statement
   validator).  The fragment of the Go abstract syntax tree that the
   compiler manipulates is embedded shallowly: statements and expressions
   become mutual inductive types, the map from statements to spans becomes
   a function argument, and the token constants become small enumerations.
   Every definition is translated from the source files under analysis;
   the few helpers whose source is not part of the analysed tree are
   marked `Modelled from the spec:` in their doc comment. -/

namespace Coroc

/-- Type expressions are represented abstractly by a numeric code
(the compiler only moves them around and compares them). -/
abbrev Ty := Nat

/-- A span: the half-open program-counter range assigned to a statement
(`span` struct used by compile.go, fields `start` and `end`). -/
structure Span where
  start : Nat
  «end» : Nat
deriving Repr, DecidableEq

/-- Resolution information carried by an identifier, standing for the
`*ast.Object` / `types.Info` data the Go compiler consults:
`varObj id` is an identifier resolved to a local object with identity
`id`, `builtinObj` marks an identifier whose `types.Universe` lookup
equals its object (builtin functions and builtin type conversions),
`typeNameObj` an identifier resolved to a `*types.TypeName`,
`pkgNameObj path` an identifier resolved to a package name with import
path `path`, and `noObj` an identifier with a nil object. -/
inductive ObjKind where
  | varObj (id : Nat)
  | builtinObj
  | typeNameObj
  | pkgNameObj (path : String)
  | funcObj
  | noObj
deriving Repr, DecidableEq

/-- Binary operator tokens (only `<` and `>` are inspected by the
generated code; every other operator is collapsed into `otherBin`). -/
inductive BinOp where
  | lss
  | gtr
  | otherBin
deriving Repr, DecidableEq

/-- Assignment tokens: `:=` (token.DEFINE) and `=` (token.ASSIGN). -/
inductive AssignTok where
  | define
  | assign
deriving Repr, DecidableEq

/-- Branch statement tokens. -/
inductive BranchTok where
  | breakT
  | continueT
  | gotoT
  | fallthroughT
deriving Repr, DecidableEq

/-- The type class of the operand of a range statement, standing for
`TypesInfo.TypeOf(n.X)` in the validator. -/
inductive RangeKind where
  | arrayK
  | sliceK
  | mapK
  | stringK
  | otherK
deriving Repr, DecidableEq

mutual
/-- Shallow embedding of the `go/ast` expressions the compiler
inspects or emits. -/
inductive Expr where
  | ident (name : String) (obj : ObjKind)
  | basicLit (value : Nat)
  | funcLit (body : List Stmt)
  | selectorExpr (x : Expr) (sel : String)
  | callExpr (fn : Expr) (args : List Expr)
  | binaryExpr (x : Expr) (op : BinOp) (y : Expr)
  | typeAssertExpr (x : Expr) (ty : Ty)
  | indexListExpr (x : Expr) (indices : List Ty)

/-- Shallow embedding of the `go/ast` statements the compiler
inspects or emits. -/
inductive Stmt where
  | declStmt (specs : List (String × Ty))
  | emptyStmt
  | labeledStmt (label : String) (stmt : Stmt)
  | exprStmt (x : Expr)
  | sendStmt (ch : Expr) (value : Expr)
  | incDecStmt (x : Expr)
  | assignStmt (lhs : List Expr) (tok : AssignTok) (rhs : List Expr)
  | goStmt (call : Expr)
  | deferStmt (call : Expr)
  | returnStmt (results : List Expr)
  | branchStmt (tok : BranchTok) (label : Option String)
  | blockStmt (stmts : List Stmt)
  | ifStmt (ini : Option Stmt) (cond : Expr) (body : Stmt) (els : Option Stmt)
  | caseClause (guards : List Expr) (body : List Stmt)
  | switchStmt (ini : Option Stmt) (tag : Option Expr) (body : Stmt)
  | typeSwitchStmt (ini : Option Stmt) (assign : Stmt) (body : Stmt)
  | commClause (comm : Option Stmt) (body : List Stmt)
  | selectStmt (body : Stmt)
  | forStmt (ini : Option Stmt) (cond : Option Expr) (post : Option Stmt) (body : Stmt)
  | rangeStmt (key : Option Expr) (value : Option Expr) (x : Expr) (xKind : RangeKind) (body : Stmt)
end

/-- The selector expression `_f.IP` built by the compiler. -/
def frameIP : Expr := .selectorExpr (.ident "_f" .noObj) "IP"

/-- The guard `_f.IP < n` attached to a dispatch case. -/
def ipLessE (n : Nat) : Expr := .binaryExpr frameIP .lss (.basicLit n)

/-- The assignment `_f.IP = n` emitted between dispatch cases and at the
end of compiled loop bodies. -/
def ipAssignS (n : Nat) : Stmt := .assignStmt [frameIP] .assign [.basicLit n]

/-- The bare `fallthrough` statement emitted inside dispatch cases. -/
def fallthroughS : Stmt := .branchStmt .fallthroughT none

/-- Modelled from the spec: the helper `unnestBlocks` is called by
compile.go but its definition is not among the source files; it strips
redundant block nesting around a single statement (the only reading on
which the compiled output stays a well-formed single statement). -/
def unnestBlocks : Stmt → Stmt
  | .blockStmt [s] => unnestBlocks s
  | s => s

/-- The source type-asserts the compiled loop body back to
`*ast.BlockStmt` before appending the instruction-pointer reset; on any
other shape the Go program would panic, and this helper leaves the
statement unchanged (the compiled form of a block is always a block, so
the second branch is unreachable on well-formed input). -/
def appendToBlock : Stmt → Stmt → Stmt
  | .blockStmt l, s => .blockStmt (l ++ [s])
  | b, _ => b

mutual
/-- Shallow embedding of `compileStatement` (compile.go lines 516-550).
The `spans` argument stands for the `map[ast.Stmt]span` computed by
`trackSpans`; a list of two or more statements becomes a dispatch block
(`compileDispatch`, inlined here as the switch over `dispatchCases`
because the two Go functions are mutually recursive). -/
def compileStatement (spans : Stmt → Span) : Stmt → Stmt
  | .blockStmt l =>
    match l with
    | [] => .blockStmt []
    | [s1] => .blockStmt [unnestBlocks (compileStatement spans s1)]
    | s1 :: s2 :: rest =>
      .blockStmt [.switchStmt none none (.blockStmt (dispatchCases spans (s1 :: s2 :: rest)))]
  | .ifStmt ini cond body els => .ifStmt ini cond (compileStatement spans body) els
  | .forStmt ini cond post body =>
    .forStmt ini cond post
      (appendToBlock (compileStatement spans body)
        (ipAssignS (spans (.forStmt ini cond post body)).start))
  | .switchStmt ini tag body =>
    match body with
    | .blockStmt l => .switchStmt ini tag (.blockStmt (compileList spans l))
    | b => .switchStmt ini tag b
  | .caseClause guards body =>
    match body with
    | [] => .caseClause guards []
    | [s1] => .caseClause guards [unnestBlocks (compileStatement spans s1)]
    | s1 :: s2 :: rest =>
      .caseClause guards [.switchStmt none none (.blockStmt (dispatchCases spans (s1 :: s2 :: rest)))]
  | s => s

/-- The loop `for i, child := range s.Body.List` of the `*ast.SwitchStmt`
case of `compileStatement`: each case clause of a switch statement body
is compiled in place. -/
def compileList (spans : Stmt → Span) : List Stmt → List Stmt
  | [] => []
  | s :: rest => compileStatement spans s :: compileList spans rest

/-- The case-building loop of `compileDispatch` (compile.go lines
552-577): case `i` is guarded by `_f.IP < span(child).end` and contains
the compiled child followed, whenever `i < len(stmts)-1` (that is, for
every child but the last), by `_f.IP = span(child).end` and an
unconditional `fallthrough`. -/
def dispatchCases (spans : Stmt → Span) : List Stmt → List Stmt
  | [] => []
  | child :: rest =>
    let e := (spans child).«end»
    let compiledChild := unnestBlocks (compileStatement spans child)
    match rest with
    | [] => [.caseClause [ipLessE e] [compiledChild]]
    | r1 :: rrest =>
      .caseClause [ipLessE e] [compiledChild, ipAssignS e, fallthroughS]
        :: dispatchCases spans (r1 :: rrest)
end

/-- Shallow embedding of `compileDispatch` (compile.go lines 552-579):
the generated dispatch block is a single expressionless switch whose
cases are `dispatchCases`. -/
def compileDispatch (spans : Stmt → Span) (stmts : List Stmt) : Stmt :=
  .switchStmt none none (.blockStmt (dispatchCases spans stmts))

/-! ### A small-step semantics for generated dispatch blocks

The dispatch compiler's output is ordinary Go: an expressionless switch
whose case guards compare `_f.IP` with span ends and whose case bodies
end in `fallthrough`.  To state the resumption property we execute that
shape under Go's switch semantics: guards are evaluated top to bottom,
the first true guard selects its case, and a trailing `fallthrough`
transfers control to the next case body without evaluating its guard.
Compiled child statements are treated as opaque actions and recorded in
a trace. -/

/-- Execution state of a dispatch block: the frame's instruction pointer
and the trace of (opaque) statements executed so far. -/
structure DState where
  ip : Nat
  trace : List Stmt

/-- Is a statement one of the two control forms the dispatch compiler
itself emits inside case bodies (an `_f.IP = n` update or a bare
`fallthrough`)?  Compiled user statements are required not to collide
with these shapes (`fallthrough` and assignment to a selector are both
rejected by the validator). -/
def isDispatchControl : Stmt → Bool
  | .branchStmt .fallthroughT none => true
  | .assignStmt [.selectorExpr (.ident "_f" _) "IP"] .assign [.basicLit _] => true
  | _ => false

/-- Run one case body: record opaque statements, interpret `_f.IP = n`
updates, and stop with `true` on a `fallthrough`. -/
def runBody : List Stmt → DState → DState × Bool
  | [], st => (st, false)
  | .branchStmt .fallthroughT none :: _, st => (st, true)
  | .assignStmt [.selectorExpr (.ident "_f" _) "IP"] .assign [.basicLit n] :: rest, st =>
    runBody rest { st with ip := n }
  | s :: rest, st => runBody rest { st with trace := st.trace ++ [s] }

/-- Evaluate a case guard: only the generated `_f.IP < n` comparisons
have a meaning in a dispatch block. -/
def evalGuard (st : DState) : Expr → Bool
  | .binaryExpr (.selectorExpr (.ident "_f" _) "IP") .lss (.basicLit n) => st.ip < n
  | _ => false

/-- Run the selected case and keep falling through while each body ends
in `fallthrough`. -/
def runCases : List Stmt → DState → DState
  | .caseClause _ body :: rest, st =>
    match runBody body st with
    | (st2, true) => runCases rest st2
    | (st2, false) => st2
  | _, st => st

/-- Scan cases top to bottom for the first whose guard list contains a
true guard (Go evaluates multi-expression cases as a disjunction), then
run from there. -/
def findAndRun : List Stmt → DState → DState
  | [], st => st
  | .caseClause guards body :: rest, st =>
    if guards.any (evalGuard st) then runCases (.caseClause guards body :: rest) st
    else findAndRun rest st
  | _ :: rest, st => findAndRun rest st

/-- Execute a generated dispatch switch. -/
def execSwitch : Stmt → DState → DState
  | .switchStmt _ _ (.blockStmt cases), st => findAndRun cases st
  | _, st => st

/-- The compiled (and unnested) form of a statement, as placed into its
dispatch case. -/
def compiledOf (spans : Stmt → Span) (s : Stmt) : Stmt :=
  unnestBlocks (compileStatement spans s)

/-! ### The span tracker

`trackSpans` is called by compile.go but its definition is not among
the source files; the functions below model the span assignment from
the specification (section 4.4): a depth-first traversal hands each
statement in a list a monotonically increasing counter range, a leaf
statement occupies a single counter value, and a compound statement's
range is the union of its children's ranges. -/

mutual
/-- Modelled from the spec: the number of program-counter values a
statement occupies (a leaf takes one, a compound statement the sum of
its children). -/
def spanSize : Stmt → Nat
  | .blockStmt l => spanSizeList l
  | .ifStmt _ _ body els =>
    spanSize body + (match els with | none => 0 | some e => spanSize e)
  | .forStmt _ _ _ body => spanSize body
  | .switchStmt _ _ body => spanSize body
  | .caseClause _ body => spanSizeList body
  | _ => 1

/-- Modelled from the spec: total width of a statement list's span. -/
def spanSizeList : List Stmt → Nat
  | [] => 0
  | s :: rest => spanSize s + spanSizeList rest
end

/-- Modelled from the spec: the span a statement receives when the
depth-first numbering reaches it at counter `n` — the range
`[n, n + spanSize s)`.  In particular a statement and its first child
start at the same counter, so a parent's span encloses its children's
spans, and consecutive statements in one list receive disjoint ordered
ranges. -/
def trackSpans (s : Stmt) (n : Nat) : Span :=
  ⟨n, n + spanSize s⟩

/-! ### The two validation walks

Both validation passes are `ast.Inspect` traversals whose callback sets
a shared `err` variable and returns `err == nil`: a node that matches an
error case overwrites `err`; once `err` is set the node's own subtree is
pruned, but siblings are still visited (and may overwrite `err` again).
`inspectStmt` and friends reproduce exactly that behaviour for a
callback `cS` on statements and `cE` on expressions. -/

/-- One visit step of the traversal: the callback's own error (`c`)
overwrites the error variable; otherwise an already-recorded error
(`err`) is kept and the subtree is pruned; only with no error at all is
the children's result (`k`) used. -/
def gateStep : Option String → Option String → Option String → Option String
  | some m, _, _ => some m
  | none, some e, _ => some e
  | none, none, k => k

mutual
/-- `ast.Inspect` on a statement: run the callback (overwriting the
error variable on a match), then descend into the children (in
`go/ast.Walk` order) only while no error is recorded. -/
def inspectStmt (cS : Stmt → Option String) (cE : Expr → Option String)
    (err : Option String) : Stmt → Option String
  | .declStmt specs => gateStep (cS (.declStmt specs)) err none
  | .emptyStmt => gateStep (cS .emptyStmt) err none
  | .labeledStmt lbl s1 =>
    gateStep (cS (.labeledStmt lbl s1)) err (inspectStmt cS cE none s1)
  | .exprStmt x => gateStep (cS (.exprStmt x)) err (inspectExpr cS cE none x)
  | .sendStmt ch v =>
    gateStep (cS (.sendStmt ch v)) err (inspectExpr cS cE (inspectExpr cS cE none ch) v)
  | .incDecStmt x => gateStep (cS (.incDecStmt x)) err (inspectExpr cS cE none x)
  | .assignStmt lhs tok rhs =>
    gateStep (cS (.assignStmt lhs tok rhs)) err
      (inspectExprs cS cE (inspectExprs cS cE none lhs) rhs)
  | .goStmt call => gateStep (cS (.goStmt call)) err (inspectExpr cS cE none call)
  | .deferStmt call => gateStep (cS (.deferStmt call)) err (inspectExpr cS cE none call)
  | .returnStmt results =>
    gateStep (cS (.returnStmt results)) err (inspectExprs cS cE none results)
  | .branchStmt tok lbl => gateStep (cS (.branchStmt tok lbl)) err none
  | .blockStmt l => gateStep (cS (.blockStmt l)) err (inspectStmts cS cE none l)
  | .ifStmt ini cond body els =>
    gateStep (cS (.ifStmt ini cond body els)) err
      (inspectOptStmt cS cE
        (inspectStmt cS cE (inspectExpr cS cE (inspectOptStmt cS cE none ini) cond) body) els)
  | .caseClause guards body =>
    gateStep (cS (.caseClause guards body)) err
      (inspectStmts cS cE (inspectExprs cS cE none guards) body)
  | .switchStmt ini tag body =>
    gateStep (cS (.switchStmt ini tag body)) err
      (inspectStmt cS cE (inspectOptExpr cS cE (inspectOptStmt cS cE none ini) tag) body)
  | .typeSwitchStmt ini assign body =>
    gateStep (cS (.typeSwitchStmt ini assign body)) err
      (inspectStmt cS cE (inspectStmt cS cE (inspectOptStmt cS cE none ini) assign) body)
  | .commClause comm body =>
    gateStep (cS (.commClause comm body)) err
      (inspectStmts cS cE (inspectOptStmt cS cE none comm) body)
  | .selectStmt body => gateStep (cS (.selectStmt body)) err (inspectStmt cS cE none body)
  | .forStmt ini cond post body =>
    gateStep (cS (.forStmt ini cond post body)) err
      (inspectStmt cS cE
        (inspectOptStmt cS cE (inspectOptExpr cS cE (inspectOptStmt cS cE none ini) cond) post)
        body)
  | .rangeStmt key value x k body =>
    gateStep (cS (.rangeStmt key value x k body)) err
      (inspectStmt cS cE
        (inspectExpr cS cE (inspectOptExpr cS cE (inspectOptExpr cS cE none key) value) x) body)

/-- `ast.Inspect` on an expression node. -/
def inspectExpr (cS : Stmt → Option String) (cE : Expr → Option String)
    (err : Option String) : Expr → Option String
  | .ident nm obj => gateStep (cE (.ident nm obj)) err none
  | .basicLit v => gateStep (cE (.basicLit v)) err none
  | .funcLit body => gateStep (cE (.funcLit body)) err (inspectStmts cS cE none body)
  | .selectorExpr x sel =>
    gateStep (cE (.selectorExpr x sel)) err (inspectExpr cS cE none x)
  | .callExpr fn args =>
    gateStep (cE (.callExpr fn args)) err
      (inspectExprs cS cE (inspectExpr cS cE none fn) args)
  | .binaryExpr x op y =>
    gateStep (cE (.binaryExpr x op y)) err (inspectExpr cS cE (inspectExpr cS cE none x) y)
  | .typeAssertExpr x ty =>
    gateStep (cE (.typeAssertExpr x ty)) err (inspectExpr cS cE none x)
  | .indexListExpr x indices =>
    gateStep (cE (.indexListExpr x indices)) err (inspectExpr cS cE none x)

/-- Fold of the traversal over a statement list (siblings are visited
even after an error is recorded). -/
def inspectStmts (cS : Stmt → Option String) (cE : Expr → Option String)
    (err : Option String) : List Stmt → Option String
  | [] => err
  | s :: rest => inspectStmts cS cE (inspectStmt cS cE err s) rest

/-- Fold of the traversal over an expression list. -/
def inspectExprs (cS : Stmt → Option String) (cE : Expr → Option String)
    (err : Option String) : List Expr → Option String
  | [] => err
  | e :: rest => inspectExprs cS cE (inspectExpr cS cE err e) rest

/-- Traversal of an optional child statement. -/
def inspectOptStmt (cS : Stmt → Option String) (cE : Expr → Option String)
    (err : Option String) : Option Stmt → Option String
  | none => err
  | some s => inspectStmt cS cE err s

/-- Traversal of an optional child expression. -/
def inspectOptExpr (cS : Stmt → Option String) (cE : Expr → Option String)
    (err : Option String) : Option Expr → Option String
  | none => err
  | some e => inspectExpr cS cE err e
end

/-- The inline statement gate of `compilePackage` (compile.go lines
198-278): the callback of the `ast.Inspect` that rejects unsupported
language features before `compileFunction` runs.  Only statement nodes
are examined.  The `_ => none` arm covers exactly the constructs the
source lists as fully supported (block, case clause, empty, expression,
if, inc/dec, return, send and switch statements); the catch-all arm of
the source switch is unreachable because every `go/ast` statement kind
is enumerated here. -/
def gateCheckStmt : Stmt → Option String
  | .deferStmt _ => some "not implemented: defer"
  | .goStmt _ => some "not implemented: go"
  | .labeledStmt _ _ => some "not implemented: labels"
  | .typeSwitchStmt _ _ _ => some "not implemented: type switch"
  | .selectStmt _ => some "not implemented: select"
  | .commClause _ _ => some "not implemented: select case"
  | .declStmt _ => some "not implemented: inline decls"
  | .rangeStmt _ _ _ k _ =>
    match k with
    | .arrayK => none
    | .sliceK => none
    | _ => some "not implemented: for range"
  | .assignStmt lhs _ rhs =>
    let e1 : Option String :=
      if lhs.length ≠ 1 ∨ lhs.length ≠ rhs.length then some "not implemented: multiple assign"
      else none
    match lhs.head? with
    | some (.ident _ _) => e1
    | _ => some "not implemented: assign to non-ident"
  | .branchStmt tok _ =>
    match tok with
    | .gotoT => some "not implemented: goto"
    | .fallthroughT => some "not implemented: fallthrough"
    | .breakT => some "not implemented: break"
    | .continueT => some "not implemented: continue"
  | .forStmt _ _ post _ =>
    match post with
    | none => none
    | some (.incDecStmt (.ident _ _)) => none
    | some (.incDecStmt _) => some "not implemented: for post inc/dec"
    | some _ => some "not implemented: for post"
  | _ => none

/-- Is a call skipped by `countFunctionCalls`?  Calls through an
identifier whose object is the universe object of its name (builtin
operations) or a type name (conversions) are skipped, as are selector
calls through the `unsafe` package. -/
def callSkipped : Expr → Bool
  | .ident _ obj =>
    match obj with
    | .builtinObj => true
    | .typeNameObj => true
    | _ => false
  | .selectorExpr (.ident _ (.pkgNameObj path)) _ => path = "unsafe"
  | _ => false

mutual
/-- Shallow embedding of `countFunctionCalls`: the number of
`*ast.CallExpr` nodes inside an expression, not counting calls whose
function is a builtin, a type conversion or an `unsafe` intrinsic
(the `ast.Inspect` there descends into every child, including function
literal bodies). -/
def countFunctionCalls : Expr → Nat
  | .ident _ _ => 0
  | .basicLit _ => 0
  | .funcLit body => countCallsStmts body
  | .selectorExpr x _ => countFunctionCalls x
  | .callExpr fn args =>
    (if callSkipped fn then 0 else 1) + countFunctionCalls fn + countCallsExprs args
  | .binaryExpr x _ y => countFunctionCalls x + countFunctionCalls y
  | .typeAssertExpr x _ => countFunctionCalls x
  | .indexListExpr x _ => countFunctionCalls x

/-- Call count of every expression hanging off a statement. -/
def countCallsStmt : Stmt → Nat
  | .declStmt _ => 0
  | .emptyStmt => 0
  | .labeledStmt _ s1 => countCallsStmt s1
  | .exprStmt x => countFunctionCalls x
  | .sendStmt ch v => countFunctionCalls ch + countFunctionCalls v
  | .incDecStmt x => countFunctionCalls x
  | .assignStmt lhs _ rhs => countCallsExprs lhs + countCallsExprs rhs
  | .goStmt call => countFunctionCalls call
  | .deferStmt call => countFunctionCalls call
  | .returnStmt results => countCallsExprs results
  | .branchStmt _ _ => 0
  | .blockStmt l => countCallsStmts l
  | .ifStmt ini cond body els =>
    countCallsOptStmt ini + countFunctionCalls cond + countCallsStmt body + countCallsOptStmt els
  | .caseClause guards body => countCallsExprs guards + countCallsStmts body
  | .switchStmt ini tag body =>
    countCallsOptStmt ini + countCallsOptExpr tag + countCallsStmt body
  | .typeSwitchStmt ini assign body =>
    countCallsOptStmt ini + countCallsStmt assign + countCallsStmt body
  | .commClause comm body => countCallsOptStmt comm + countCallsStmts body
  | .selectStmt body => countCallsStmt body
  | .forStmt ini cond post body =>
    countCallsOptStmt ini + countCallsOptExpr cond + countCallsOptStmt post + countCallsStmt body
  | .rangeStmt key value x _ body =>
    countCallsOptExpr key + countCallsOptExpr value + countFunctionCalls x + countCallsStmt body

/-- Call count of a statement list. -/
def countCallsStmts : List Stmt → Nat
  | [] => 0
  | s :: rest => countCallsStmt s + countCallsStmts rest

/-- Call count of an expression list. -/
def countCallsExprs : List Expr → Nat
  | [] => 0
  | e :: rest => countFunctionCalls e + countCallsExprs rest

/-- Call count of an optional statement. -/
def countCallsOptStmt : Option Stmt → Nat
  | none => 0
  | some s => countCallsStmt s

/-- Call count of an optional expression. -/
def countCallsOptExpr : Option Expr → Nat
  | none => 0
  | some e => countFunctionCalls e
end

/-- The statement callback of the `unsupported` validator
(the separate gating pass): defer, go, select and select cases are
rejected; among branch statements only goto and fallthrough are
rejected (break and continue are accepted); labels are accepted only on
for, switch, type-switch and select statements; a for loop's post
statement must be a bare increment or decrement of an identifier.
Assign, block, case clause, decl, empty, expression, if, inc/dec,
range, return, send, switch and type-switch statements are fully
supported; the catch-all arm of the source switch is unreachable here
because every statement kind is enumerated. -/
def unsupCheckStmt : Stmt → Option String
  | .deferStmt _ => some "not implemented: defer"
  | .goStmt _ => some "not implemented: go"
  | .selectStmt _ => some "not implemented: select"
  | .commClause _ _ => some "not implemented: select case"
  | .branchStmt tok _ =>
    match tok with
    | .gotoT => some "not implemented: goto"
    | .fallthroughT => some "not implemented: fallthrough"
    | _ => none
  | .labeledStmt _ s =>
    match s with
    | .forStmt _ _ _ _ => none
    | .switchStmt _ _ _ => none
    | .typeSwitchStmt _ _ _ => none
    | .selectStmt _ => none
    | _ => some "not implemented: labels not attached to for/switch/select"
  | .forStmt _ _ post _ =>
    match post with
    | none => none
    | some (.incDecStmt (.ident _ _)) => none
    | some (.incDecStmt _) => some "not implemented: for post inc/dec"
    | some _ => some "not implemented: for post"
  | _ => none

/-- The expression callback of the `unsupported` validator: a function
literal records an error, and the multiple-function-call check runs
afterwards on the same node, overwriting the error variable when it
fires (so the count error is reported when both apply). -/
def unsupCheckExpr (e : Expr) : Option String :=
  if countFunctionCalls e > 1 then some "not implemented: multiple function calls in an expression"
  else
    match e with
    | .funcLit _ => some "not implemented: func literals"
    | _ => none

/-- Shallow embedding of the whole `unsupported` validation pass on a
function body. -/
def unsupported (body : List Stmt) : Option String :=
  inspectStmts unsupCheckStmt unsupCheckExpr none body

/-- The inline gating walk of `compilePackage` on a function body
(the expression callback of that `ast.Inspect` accepts everything: only
statement nodes are examined). -/
def gateValidate (body : List Stmt) : Option String :=
  inspectStmts gateCheckStmt (fun _ => none) none body

/-! ### Syntactic containment

`anyStmt pS pE` decides whether a node satisfying `pS` (statements) or
`pE` (expressions) occurs anywhere in a tree; it is used to state the
"a function containing construct X is rejected" claims. -/

mutual
/-- Does a statement or any of its descendants satisfy one of the two
node predicates? -/
def anyStmt (pS : Stmt → Bool) (pE : Expr → Bool) (s : Stmt) : Bool :=
  pS s ||
    match s with
    | .declStmt _ => false
    | .emptyStmt => false
    | .labeledStmt _ s1 => anyStmt pS pE s1
    | .exprStmt x => anyExpr pS pE x
    | .sendStmt ch v => anyExpr pS pE ch || anyExpr pS pE v
    | .incDecStmt x => anyExpr pS pE x
    | .assignStmt lhs _ rhs => anyExprs pS pE lhs || anyExprs pS pE rhs
    | .goStmt call => anyExpr pS pE call
    | .deferStmt call => anyExpr pS pE call
    | .returnStmt results => anyExprs pS pE results
    | .branchStmt _ _ => false
    | .blockStmt l => anyStmts pS pE l
    | .ifStmt ini cond body els =>
      anyOptStmt pS pE ini || anyExpr pS pE cond || anyStmt pS pE body || anyOptStmt pS pE els
    | .caseClause guards body => anyExprs pS pE guards || anyStmts pS pE body
    | .switchStmt ini tag body =>
      anyOptStmt pS pE ini || anyOptExpr pS pE tag || anyStmt pS pE body
    | .typeSwitchStmt ini assign body =>
      anyOptStmt pS pE ini || anyStmt pS pE assign || anyStmt pS pE body
    | .commClause comm body => anyOptStmt pS pE comm || anyStmts pS pE body
    | .selectStmt body => anyStmt pS pE body
    | .forStmt ini cond post body =>
      anyOptStmt pS pE ini || anyOptExpr pS pE cond || anyOptStmt pS pE post || anyStmt pS pE body
    | .rangeStmt key value x _ body =>
      anyOptExpr pS pE key || anyOptExpr pS pE value || anyExpr pS pE x || anyStmt pS pE body

/-- Does an expression or any of its descendants satisfy one of the two
node predicates? -/
def anyExpr (pS : Stmt → Bool) (pE : Expr → Bool) (e : Expr) : Bool :=
  pE e ||
    match e with
    | .ident _ _ => false
    | .basicLit _ => false
    | .funcLit body => anyStmts pS pE body
    | .selectorExpr x _ => anyExpr pS pE x
    | .callExpr fn args => anyExpr pS pE fn || anyExprs pS pE args
    | .binaryExpr x _ y => anyExpr pS pE x || anyExpr pS pE y
    | .typeAssertExpr x _ => anyExpr pS pE x
    | .indexListExpr x _ => anyExpr pS pE x

/-- Containment over a statement list. -/
def anyStmts (pS : Stmt → Bool) (pE : Expr → Bool) (l : List Stmt) : Bool :=
  match l with
  | [] => false
  | s :: rest => anyStmt pS pE s || anyStmts pS pE rest

/-- Containment over an expression list. -/
def anyExprs (pS : Stmt → Bool) (pE : Expr → Bool) (l : List Expr) : Bool :=
  match l with
  | [] => false
  | e :: rest => anyExpr pS pE e || anyExprs pS pE rest

/-- Containment over an optional statement. -/
def anyOptStmt (pS : Stmt → Bool) (pE : Expr → Bool) (o : Option Stmt) : Bool :=
  match o with
  | none => false
  | some s => anyStmt pS pE s

/-- Containment over an optional expression. -/
def anyOptExpr (pS : Stmt → Bool) (pE : Expr → Bool) (o : Option Expr) : Bool :=
  match o with
  | none => false
  | some e => anyExpr pS pE e
end

/-! ### compileFunction: the frame-variable scan and the generated
prologue and epilogue (compile.go lines 317-514) -/

/-- A parameter or result field of a function type (`*ast.Field`): a
list of names sharing one declared type. -/
structure Field where
  names : List String
  ty : Ty
deriving Repr, DecidableEq

/-- A function signature (`*ast.FuncType`). -/
structure FuncType where
  params : List Field
  results : List Field
deriving Repr, DecidableEq

/-- A function declaration: name, signature and body statement list. -/
structure FuncDecl where
  name : String
  type : FuncType
  body : List Stmt

/-- Modelled from the spec: `desugar` is called by `compileFunction`
but its definition is not among the source files and the specification
does not describe a desugaring step, so it is modelled as the identity
transformation on the body. -/
def desugar (body : List Stmt) : List Stmt := body

/-- Modelled from the spec: `typeExpr` renders a `types.Type` back into
an `ast.Expr`; with types embedded as abstract codes it is the
identity. -/
def typeExpr (t : Ty) : Ty := t

/-- The synthetic slot-variable name `_v<i>`. -/
def vName (i : Nat) : String := "_v" ++ toString i

/-- State of the first `ast.Inspect` of `compileFunction` (lines
367-390): the `objectVars` map from declaration objects to their
synthetic identifiers (kept as an association list in insertion order),
and the parallel `varNames` / `varTypes` slices. -/
structure ScanState where
  objectVars : List (Nat × String)
  varNames : List String
  varTypes : List Ty

/-- The empty scan state. -/
def initScan : ScanState := ⟨[], [], []⟩

/-- The `*ast.AssignStmt` callback case of the first inspect: the
source first asserts `n.Lhs[0]` to an identifier (panicking otherwise —
the inline gate has already rejected non-identifier targets), rewrites
a `:=` token to `=`, and then, when the identifier carries an object
not yet in `objectVars`, appends a fresh `_v<i>` name and the object's
type to the state.  Returns the new token and state. -/
def scanAssignHead (Γ : Nat → Ty) (st : ScanState) (lhs : List Expr) (tok : AssignTok) :
    AssignTok × ScanState :=
  match lhs.head? with
  | some (.ident _ obj) =>
    let tok2 := match tok with
      | .define => .assign
      | .assign => .assign
    match obj with
    | .varObj id =>
      if (st.objectVars.lookup id).isSome then (tok2, st)
      else
        (tok2,
          { objectVars := st.objectVars ++ [(id, vName st.varNames.length)],
            varNames := st.varNames ++ [vName st.varNames.length],
            varTypes := st.varTypes ++ [Γ id] })
    | _ => (tok2, st)
  | _ => (tok, st)

mutual
/-- The first `ast.Inspect` of `compileFunction` on one statement:
pre-order, always descending, acting only on assignment statements. -/
def scanStmt (Γ : Nat → Ty) (st : ScanState) : Stmt → Stmt × ScanState
  | .assignStmt lhs tok rhs =>
    let (tok2, st1) := scanAssignHead Γ st lhs tok
    let (lhs2, st2) := scanExprs Γ st1 lhs
    let (rhs2, st3) := scanExprs Γ st2 rhs
    (.assignStmt lhs2 tok2 rhs2, st3)
  | .declStmt specs => (.declStmt specs, st)
  | .emptyStmt => (.emptyStmt, st)
  | .labeledStmt lbl s1 =>
    let (s2, st1) := scanStmt Γ st s1
    (.labeledStmt lbl s2, st1)
  | .exprStmt x =>
    let (x2, st1) := scanExpr Γ st x
    (.exprStmt x2, st1)
  | .sendStmt ch v =>
    let (ch2, st1) := scanExpr Γ st ch
    let (v2, st2) := scanExpr Γ st1 v
    (.sendStmt ch2 v2, st2)
  | .incDecStmt x =>
    let (x2, st1) := scanExpr Γ st x
    (.incDecStmt x2, st1)
  | .goStmt call =>
    let (c2, st1) := scanExpr Γ st call
    (.goStmt c2, st1)
  | .deferStmt call =>
    let (c2, st1) := scanExpr Γ st call
    (.deferStmt c2, st1)
  | .returnStmt results =>
    let (rs, st1) := scanExprs Γ st results
    (.returnStmt rs, st1)
  | .branchStmt tok lbl => (.branchStmt tok lbl, st)
  | .blockStmt l =>
    let (l2, st1) := scanStmts Γ st l
    (.blockStmt l2, st1)
  | .ifStmt ini cond body els =>
    let (ini2, st1) := scanOptStmt Γ st ini
    let (cond2, st2) := scanExpr Γ st1 cond
    let (body2, st3) := scanStmt Γ st2 body
    let (els2, st4) := scanOptStmt Γ st3 els
    (.ifStmt ini2 cond2 body2 els2, st4)
  | .caseClause guards body =>
    let (g2, st1) := scanExprs Γ st guards
    let (b2, st2) := scanStmts Γ st1 body
    (.caseClause g2 b2, st2)
  | .switchStmt ini tag body =>
    let (ini2, st1) := scanOptStmt Γ st ini
    let (tag2, st2) := scanOptExpr Γ st1 tag
    let (body2, st3) := scanStmt Γ st2 body
    (.switchStmt ini2 tag2 body2, st3)
  | .typeSwitchStmt ini assign body =>
    let (ini2, st1) := scanOptStmt Γ st ini
    let (a2, st2) := scanStmt Γ st1 assign
    let (b2, st3) := scanStmt Γ st2 body
    (.typeSwitchStmt ini2 a2 b2, st3)
  | .commClause comm body =>
    let (c2, st1) := scanOptStmt Γ st comm
    let (b2, st2) := scanStmts Γ st1 body
    (.commClause c2 b2, st2)
  | .selectStmt body =>
    let (b2, st1) := scanStmt Γ st body
    (.selectStmt b2, st1)
  | .forStmt ini cond post body =>
    let (ini2, st1) := scanOptStmt Γ st ini
    let (cond2, st2) := scanOptExpr Γ st1 cond
    let (post2, st3) := scanOptStmt Γ st2 post
    let (body2, st4) := scanStmt Γ st3 body
    (.forStmt ini2 cond2 post2 body2, st4)
  | .rangeStmt key value x k body =>
    let (key2, st1) := scanOptExpr Γ st key
    let (value2, st2) := scanOptExpr Γ st1 value
    let (x2, st3) := scanExpr Γ st2 x
    let (body2, st4) := scanStmt Γ st3 body
    (.rangeStmt key2 value2 x2 k body2, st4)

/-- The first inspect on one expression (descends into function literal
bodies like `ast.Inspect` does). -/
def scanExpr (Γ : Nat → Ty) (st : ScanState) : Expr → Expr × ScanState
  | .ident nm obj => (.ident nm obj, st)
  | .basicLit v => (.basicLit v, st)
  | .funcLit body =>
    let (b2, st1) := scanStmts Γ st body
    (.funcLit b2, st1)
  | .selectorExpr x sel =>
    let (x2, st1) := scanExpr Γ st x
    (.selectorExpr x2 sel, st1)
  | .callExpr fn args =>
    let (fn2, st1) := scanExpr Γ st fn
    let (args2, st2) := scanExprs Γ st1 args
    (.callExpr fn2 args2, st2)
  | .binaryExpr x op y =>
    let (x2, st1) := scanExpr Γ st x
    let (y2, st2) := scanExpr Γ st1 y
    (.binaryExpr x2 op y2, st2)
  | .typeAssertExpr x ty =>
    let (x2, st1) := scanExpr Γ st x
    (.typeAssertExpr x2 ty, st1)
  | .indexListExpr x indices =>
    let (x2, st1) := scanExpr Γ st x
    (.indexListExpr x2 indices, st1)

/-- The first inspect over a statement list. -/
def scanStmts (Γ : Nat → Ty) (st : ScanState) : List Stmt → List Stmt × ScanState
  | [] => ([], st)
  | s :: rest =>
    let (s2, st1) := scanStmt Γ st s
    let (rest2, st2) := scanStmts Γ st1 rest
    (s2 :: rest2, st2)

/-- The first inspect over an expression list. -/
def scanExprs (Γ : Nat → Ty) (st : ScanState) : List Expr → List Expr × ScanState
  | [] => ([], st)
  | e :: rest =>
    let (e2, st1) := scanExpr Γ st e
    let (rest2, st2) := scanExprs Γ st1 rest
    (e2 :: rest2, st2)

/-- The first inspect over an optional statement. -/
def scanOptStmt (Γ : Nat → Ty) (st : ScanState) : Option Stmt → Option Stmt × ScanState
  | none => (none, st)
  | some s =>
    let (s2, st1) := scanStmt Γ st s
    (some s2, st1)

/-- The first inspect over an optional expression. -/
def scanOptExpr (Γ : Nat → Ty) (st : ScanState) : Option Expr → Option Expr × ScanState
  | none => (none, st)
  | some e =>
    let (e2, st1) := scanExpr Γ st e
    (some e2, st1)
end

mutual
/-- The second `ast.Inspect` of `compileFunction` (lines 391-398):
every identifier whose object is a key of `objectVars` has its name
replaced by the synthetic slot name. -/
def replaceStmt (m : List (Nat × String)) : Stmt → Stmt
  | .declStmt specs => .declStmt specs
  | .emptyStmt => .emptyStmt
  | .labeledStmt lbl s1 => .labeledStmt lbl (replaceStmt m s1)
  | .exprStmt x => .exprStmt (replaceExpr m x)
  | .sendStmt ch v => .sendStmt (replaceExpr m ch) (replaceExpr m v)
  | .incDecStmt x => .incDecStmt (replaceExpr m x)
  | .assignStmt lhs tok rhs => .assignStmt (replaceExprs m lhs) tok (replaceExprs m rhs)
  | .goStmt call => .goStmt (replaceExpr m call)
  | .deferStmt call => .deferStmt (replaceExpr m call)
  | .returnStmt results => .returnStmt (replaceExprs m results)
  | .branchStmt tok lbl => .branchStmt tok lbl
  | .blockStmt l => .blockStmt (replaceStmts m l)
  | .ifStmt ini cond body els =>
    .ifStmt (replaceOptStmt m ini) (replaceExpr m cond) (replaceStmt m body) (replaceOptStmt m els)
  | .caseClause guards body => .caseClause (replaceExprs m guards) (replaceStmts m body)
  | .switchStmt ini tag body =>
    .switchStmt (replaceOptStmt m ini) (replaceOptExpr m tag) (replaceStmt m body)
  | .typeSwitchStmt ini assign body =>
    .typeSwitchStmt (replaceOptStmt m ini) (replaceStmt m assign) (replaceStmt m body)
  | .commClause comm body => .commClause (replaceOptStmt m comm) (replaceStmts m body)
  | .selectStmt body => .selectStmt (replaceStmt m body)
  | .forStmt ini cond post body =>
    .forStmt (replaceOptStmt m ini) (replaceOptExpr m cond) (replaceOptStmt m post)
      (replaceStmt m body)
  | .rangeStmt key value x k body =>
    .rangeStmt (replaceOptExpr m key) (replaceOptExpr m value) (replaceExpr m x) k
      (replaceStmt m body)

/-- Identifier replacement inside an expression. -/
def replaceExpr (m : List (Nat × String)) : Expr → Expr
  | .ident nm obj =>
    match obj with
    | .varObj id =>
      match m.lookup id with
      | some v => .ident v obj
      | none => .ident nm obj
    | _ => .ident nm obj
  | .basicLit v => .basicLit v
  | .funcLit body => .funcLit (replaceStmts m body)
  | .selectorExpr x sel => .selectorExpr (replaceExpr m x) sel
  | .callExpr fn args => .callExpr (replaceExpr m fn) (replaceExprs m args)
  | .binaryExpr x op y => .binaryExpr (replaceExpr m x) op (replaceExpr m y)
  | .typeAssertExpr x ty => .typeAssertExpr (replaceExpr m x) ty
  | .indexListExpr x indices => .indexListExpr (replaceExpr m x) indices

/-- Identifier replacement over a statement list. -/
def replaceStmts (m : List (Nat × String)) : List Stmt → List Stmt
  | [] => []
  | s :: rest => replaceStmt m s :: replaceStmts m rest

/-- Identifier replacement over an expression list. -/
def replaceExprs (m : List (Nat × String)) : List Expr → List Expr
  | [] => []
  | e :: rest => replaceExpr m e :: replaceExprs m rest

/-- Identifier replacement over an optional statement. -/
def replaceOptStmt (m : List (Nat × String)) : Option Stmt → Option Stmt
  | none => none
  | some s => some (replaceStmt m s)

/-- Identifier replacement over an optional expression. -/
def replaceOptExpr (m : List (Nat × String)) : Option Expr → Option Expr
  | none => none
  | some e => some (replaceExpr m e)
end

/-- The names of a field list that take save/restore slots: every name
except the `_` placeholder, each paired with the field's declared type
(compile.go lines 415-436). -/
def fieldPairs (fields : List Field) : List (String × Ty) :=
  (fields.map (fun f => (f.names.filter (fun nm => nm ≠ "_")).map (fun nm => (nm, f.ty)))).flatten

/-- The save/restore slot plan: named parameters, then named results
(placeholders skipped), then the scanned local variables, in that
order; the position in this list is the frame slot index. -/
def planPairs (fn : FuncDecl) (varNames : List String) (varTypes : List Ty) :
    List (String × Ty) :=
  fieldPairs fn.type.params ++ fieldPairs fn.type.results ++ varNames.zip varTypes

/-- The restore loop of the prologue (lines 444-464): slot `i` is
restored by `name = _f.Get(i).(type)`. -/
def restoreStmts : Nat → List (String × Ty) → List Stmt
  | _, [] => []
  | i, (nm, ty) :: rest =>
    .assignStmt [.ident nm .noObj] .assign
        [.typeAssertExpr
          (.callExpr (.selectorExpr (.ident "_f" .noObj) "Get") [.basicLit i])
          (typeExpr ty)]
      :: restoreStmts (i + 1) rest

/-- The generated restore guard (lines 465-471):
`if _f.IP > 0 { ...restores... }`. -/
def restoreIf (plan : List (String × Ty)) : Stmt :=
  .ifStmt none (.binaryExpr frameIP .gtr (.basicLit 0)) (.blockStmt (restoreStmts 0 plan)) none

/-- The save loop of the epilogue (lines 474-485): slot `i` is saved by
`_f.Set(i, name)`. -/
def saveStmts : Nat → List (String × Ty) → List Stmt
  | _, [] => []
  | i, (nm, _) :: rest =>
    .exprStmt (.callExpr (.selectorExpr (.ident "_f" .noObj) "Set")
        [.basicLit i, .ident nm .noObj])
      :: saveStmts (i + 1) rest

/-- The body of the deferred closure: save every slot while the
context is unwinding, pop the frame otherwise. -/
def epilogueIf (plan : List (String × Ty)) : Stmt :=
  .ifStmt none
    (.callExpr (.selectorExpr (.ident "_c" .noObj) "Unwinding") [])
    (.blockStmt (saveStmts 0 plan))
    (some (.blockStmt
      [.exprStmt (.callExpr (.selectorExpr (.ident "_c" .noObj) "Pop") [])]))

/-- The generated epilogue (lines 486-505): a deferred closure that
saves every slot while the context is unwinding and pops the frame
otherwise. -/
def deferSave (plan : List (String × Ty)) : Stmt :=
  .deferStmt (.callExpr (.funcLit [epilogueIf plan]) [])

/-- The generated `_c := coroutine.LoadContext[R, S]()` (lines 336-351),
indexed by the function's color. -/
def ctxAssign (color : Ty × Ty) : Stmt :=
  .assignStmt [.ident "_c" .noObj] .define
    [.callExpr
      (.indexListExpr (.selectorExpr (.ident "coroutine" .noObj) "LoadContext")
        [typeExpr color.1, typeExpr color.2])
      []]

/-- The generated `_f := _c.Push()` (lines 353-362). -/
def pushAssign : Stmt :=
  .assignStmt [.ident "_f" .noObj] .define
    [.callExpr (.selectorExpr (.ident "_c" .noObj) "Push") []]

/-- The statement list of a block statement; the source obtains it by a
`.(*ast.BlockStmt)` type assertion (the compiled form of a block is
always a block, so the second branch is unreachable on well-formed
input). -/
def blockList : Stmt → List Stmt
  | .blockStmt l => l
  | s => [s]

/-- Shallow embedding of `compileFunction` (compile.go lines 317-514).
`Γ` stands for `p.TypesInfo` (the declared type of each object) and
`spans` for the `trackSpans` result on the desugared body.  The
generated declaration reuses the source function's name and type and
replaces only the body: context load, frame push, upfront slot-variable
declarations, the restore guard, the deferred save/pop epilogue, and
the dispatch-compiled body. -/
def compileFunction (Γ : Nat → Ty) (spans : Stmt → Span) (color : Ty × Ty)
    (fn : FuncDecl) : FuncDecl :=
  let body0 := desugar fn.body
  let scanned := scanStmts Γ initScan body0
  let st := scanned.2
  let body2 := replaceStmts st.objectVars scanned.1
  let plan := planPairs fn st.varNames st.varTypes
  let varDecls : List Stmt :=
    if st.varTypes.length > 0 then
      [.declStmt (st.varNames.zip (st.varTypes.map typeExpr))]
    else []
  { name := fn.name,
    type := fn.type,
    body := [ctxAssign color, pushAssign] ++ varDecls ++ [restoreIf plan, deferSave plan]
      ++ blockList (compileStatement spans (.blockStmt body2)) }

/-! ### compilePackage (compile.go lines 163-315) -/

/-- A package presented to the compiler: its name and its function
declarations, each with its color when the coloring pass colored it. -/
structure Package where
  name : String
  decls : List (FuncDecl × Option (Ty × Ty))

/-- The generated output file: package name, the fixed generated-code
header, the optional build-tag line, and the rewritten declarations
(the injected coroutine-runtime import is left implicit). -/
structure GenFile where
  pkgName : String
  header : String
  buildTags : Option String
  decls : List FuncDecl

/-- The declaration loop of `compilePackage`: uncolored declarations
are skipped; each colored declaration is gated by the inline
`ast.Inspect` validation and, on success, compiled; the first
validation error aborts the whole package. -/
def compileDecls (Γ : Nat → Ty) (spans : Stmt → Span) :
    List (FuncDecl × Option (Ty × Ty)) → Except String (List FuncDecl)
  | [] => .ok []
  | (_, none) :: rest => compileDecls Γ spans rest
  | (fn, some color) :: rest =>
    match gateValidate fn.body with
    | some e => .error e
    | none =>
      match compileDecls Γ spans rest with
      | .error e => .error e
      | .ok ds => .ok (compileFunction Γ spans color fn :: ds)

/-- Shallow embedding of `compilePackage`: the output file is created
only after every colored declaration has been validated and compiled
(the source calls `os.Create` after the loop), so an `.error` result
means no output file is produced for the package. -/
def compilePackage (Γ : Nat → Ty) (spans : Stmt → Span) (buildTags : Option String)
    (p : Package) : Except String GenFile :=
  match compileDecls Γ spans p.decls with
  | .error e => .error e
  | .ok ds =>
    .ok { pkgName := p.name,
          header := "// Code generated by coroc. DO NOT EDIT",
          buildTags := buildTags,
          decls := ds }

/-! ### Runtime semantics of the generated prologue and epilogue

A tiny evaluator for exactly the statement shapes `compileFunction`
emits, against the runtime contract: a frame with an instruction
pointer and a slot store of dynamically typed values, a context that
reports whether the exit is an unwinding, `Get`/`Set` by slot index,
a checked type assertion that is a fatal error on mismatch, and `Pop`. -/

/-- A dynamically typed runtime value in frame storage. -/
structure Value where
  ty : Ty
  payload : Nat
deriving Repr, DecidableEq

/-- Runtime state visible to the generated prologue/epilogue: the
frame's instruction pointer, the unwinding flag of the context, the
frame's slot store, the local environment of the function, the
`Set` calls performed so far and whether `Pop` was called. -/
structure GenState where
  ip : Nat
  unwinding : Bool
  slots : Nat → Value
  env : List (String × Value)
  sets : List (Nat × Value)
  popped : Bool

/-- Environment lookup (a missing name yields a zero value; the
generated code only reads names it has declared). -/
def envLookup (env : List (String × Value)) (nm : String) : Value :=
  (env.lookup nm).getD ⟨0, 0⟩

mutual
/-- Execute one generated statement: the `_f.IP > 0` restore guard, the
`_c.Unwinding()` branch, a checked slot restore (fatal `.error` on a
type mismatch, exactly like Go's single-result type assertion), a
`_f.Set(i, name)` save, or a `_c.Pop()`.  Statements outside the
generated fragment are no-ops for this contract. -/
def execGen : Stmt → GenState → Except String GenState
  | .ifStmt none (.binaryExpr (.selectorExpr (.ident "_f" _) "IP") .gtr (.basicLit 0))
      (.blockStmt body) none, st =>
    if st.ip > 0 then execGenList body st else .ok st
  | .ifStmt none (.callExpr (.selectorExpr (.ident "_c" _) "Unwinding") [])
      (.blockStmt thenB) (some (.blockStmt elseB)), st =>
    if st.unwinding then execGenList thenB st else execGenList elseB st
  | .assignStmt [.ident nm _] .assign
      [.typeAssertExpr (.callExpr (.selectorExpr (.ident "_f" _) "Get") [.basicLit i]) ty], st =>
    let v := st.slots i
    if v.ty = ty then .ok { st with env := (nm, v) :: st.env }
    else .error "interface conversion"
  | .exprStmt (.callExpr (.selectorExpr (.ident "_f" _) "Set") [.basicLit i, .ident nm _]), st =>
    .ok { st with sets := st.sets ++ [(i, envLookup st.env nm)] }
  | .exprStmt (.callExpr (.selectorExpr (.ident "_c" _) "Pop") []), st =>
    .ok { st with popped := true }
  | _, st => .ok st

/-- Execute a list of generated statements, stopping at the first
fatal error. -/
def execGenList : List Stmt → GenState → Except String GenState
  | [], st => .ok st
  | s :: rest, st =>
    match execGen s st with
    | .error e => .error e
    | .ok st2 => execGenList rest st2
end

/-- The values a successful restore starting at slot `i` binds, in
execution order: slot `i` for the first plan entry, slot `i+1` for the
next, and so on. -/
def restoredPairs (slots : Nat → Value) : Nat → List (String × Ty) → List (String × Value)
  | _, [] => []
  | i, (nm, _) :: rest => (nm, slots i) :: restoredPairs slots (i + 1) rest

/-- Do the stored values match the plan's declared types from slot `i`
on? -/
def slotsMatch (slots : Nat → Value) : Nat → List (String × Ty) → Bool
  | _, [] => true
  | i, (_, ty) :: rest => decide ((slots i).ty = ty) && slotsMatch slots (i + 1) rest

/-- The `Set` calls the save loop performs from slot `i` on: each plan
entry's current environment value at its slot index. -/
def savedPairs (env : List (String × Value)) : Nat → List (String × Ty) → List (Nat × Value)
  | _, [] => []
  | i, (nm, _) :: rest => (i, envLookup env nm) :: savedPairs env (i + 1) rest

/-! ## Structural lemmas about the dispatch compiler -/

/-- The compiled form of a block statement is again a block statement
(this is the invariant behind the source's `.(*ast.BlockStmt)` type
assertions). -/
theorem compileStatement_block (spans : Stmt → Span) (l : List Stmt) :
    ∃ l2, compileStatement spans (.blockStmt l) = .blockStmt l2 := by
  match l with
  | [] => exact ⟨[], rfl⟩
  | [s1] => exact ⟨_, rfl⟩
  | s1 :: s2 :: rest => exact ⟨_, rfl⟩

/-- `dispatchCases` produces one case per statement. -/
theorem dispatchCases_length (spans : Stmt → Span) :
    ∀ l : List Stmt, (dispatchCases spans l).length = l.length
  | [] => rfl
  | [_] => rfl
  | c :: d :: rest => by
    have ih := dispatchCases_length spans (d :: rest)
    simp only [dispatchCases, List.length_cons] at ih ⊢
    omega

/-- The shape of case `i` of a dispatch block: guarded by
`_f.IP < span(stmt i).end`, containing the compiled statement and —
for every statement but the last — the instruction pointer update to
that span end followed by `fallthrough`. -/
theorem dispatchCases_get (spans : Stmt → Span) :
    ∀ (l : List Stmt) (i : Nat) (h : i < l.length),
      (dispatchCases spans l).get ⟨i, by rw [dispatchCases_length]; exact h⟩ =
        .caseClause [ipLessE ((spans (l.get ⟨i, h⟩)).«end»)]
          ([compiledOf spans (l.get ⟨i, h⟩)] ++
            (if i < l.length - 1 then
              [ipAssignS ((spans (l.get ⟨i, h⟩)).«end»), fallthroughS]
            else []))
  | [c], 0, _ => by
    simp only [dispatchCases]
    simp [compiledOf]
  | c :: d :: rest, 0, _ => by
    simp only [dispatchCases]
    simp [compiledOf]
  | c :: d :: rest, i + 1, h => by
    have hlt : i < (d :: rest).length := by
      simp only [List.length_cons] at h ⊢; omega
    have ih := dispatchCases_get spans (d :: rest) i hlt
    simp only [dispatchCases, List.get_cons_succ] at ih ⊢
    rw [ih]
    simp only [List.length_cons, Nat.add_sub_cancel, Nat.add_lt_add_iff_right]

/-! ## Execution lemmas for the resumption (dispatch skip) property -/

/-- Running a case body past an opaque (non-control) statement records
it in the trace. -/
theorem runBody_abstract (s : Stmt) (rest : List Stmt) (st : DState)
    (h : isDispatchControl s = false) :
    runBody (s :: rest) st = runBody rest { st with trace := st.trace ++ [s] } := by
  rw [runBody.eq_def]
  split
  · rename_i heq; cases heq
  · rename_i heq; injection heq with h1 h2; subst h1
    simp [isDispatchControl] at h
  · rename_i heq; injection heq with h1 h2; subst h1
    simp [isDispatchControl] at h
  · rename_i heq; injection heq with h1 h2; subst h1; subst h2; rfl

/-- Running the generated suffix of cases built from a non-empty
statement list appends exactly the compiled statements, in order. -/
theorem runCases_dispatch (spans : Stmt → Span) :
    ∀ (ys : List Stmt) (st : DState),
      (∀ s ∈ ys, isDispatchControl (compiledOf spans s) = false) →
      (runCases (dispatchCases spans ys) st).trace = st.trace ++ ys.map (compiledOf spans)
  | [], st, _ => by simp [dispatchCases, runCases]
  | [y], st, h => by
    have hy := h y (by simp)
    simp only [compiledOf] at hy
    simp only [dispatchCases, runCases]
    rw [runBody_abstract _ _ _ hy]
    simp [runBody, compiledOf]
  | y :: z :: rest, st, h => by
    have hy := h y (by simp)
    simp only [compiledOf] at hy
    have ih := runCases_dispatch spans (z :: rest)
      ⟨(spans y).«end», st.trace ++ [unnestBlocks (compileStatement spans y)]⟩
      (fun s hs => h s (by simp at hs ⊢; tauto))
    simp only [dispatchCases, runCases]
    rw [runBody_abstract _ _ _ hy]
    simp only [runBody, ipAssignS, frameIP, fallthroughS]
    simp only [compiledOf] at ih ⊢
    rw [ih]
    simp [compiledOf]

/-- A dispatch case whose guard is false is skipped. -/
theorem findAndRun_skip (gs : List Expr) (body rest : List Stmt) (st : DState)
    (h : gs.any (evalGuard st) = false) :
    findAndRun (.caseClause gs body :: rest) st = findAndRun rest st := by
  simp [findAndRun, h]

/-- The guard of a generated dispatch case evaluates to the comparison
of the instruction pointer with the recorded span end. -/
theorem evalGuard_ipLess (st : DState) (n : Nat) :
    evalGuard st (ipLessE n) = decide (st.ip < n) := rfl

/-- Skipping a prefix of dispatch cases whose span ends are all at or
below the stored instruction pointer. -/
theorem findAndRun_dispatch_front (spans : Stmt → Span) :
    ∀ (pre rest : List Stmt) (st : DState), rest ≠ [] →
      (∀ s ∈ pre, ¬ st.ip < (spans s).«end») →
      findAndRun (dispatchCases spans (pre ++ rest)) st =
        findAndRun (dispatchCases spans rest) st
  | [], rest, st, _, _ => by simp
  | q :: pre, rest, st, hrest, h => by
    have hq : ¬ st.ip < (spans q).«end» := h q (by simp)
    have hne : pre ++ rest ≠ [] := by
      intro hc
      exact hrest (List.append_eq_nil.mp hc).2
    have ih := findAndRun_dispatch_front spans pre rest st hrest
      (fun s hs => h s (by simp [hs]))
    obtain ⟨w, ws, hw⟩ : ∃ w ws, pre ++ rest = w :: ws := by
      cases hpr : pre ++ rest with
      | nil => exact absurd hpr hne
      | cons w ws => exact ⟨w, ws, rfl⟩
    rw [List.cons_append, hw]
    simp only [dispatchCases]
    rw [findAndRun_skip]
    · rw [← hw]; exact ih
    · simp [evalGuard_ipLess, hq]

/-- The first case of a dispatch block for a non-empty list is guarded
by the first statement's span end. -/
theorem dispatchCases_cons_head (spans : Stmt → Span) (p : Stmt) (ps : List Stmt) :
    ∃ body tail,
      dispatchCases spans (p :: ps) = .caseClause [ipLessE ((spans p).«end»)] body :: tail := by
  cases ps with
  | nil => exact ⟨_, _, rfl⟩
  | cons q qs => exact ⟨_, _, rfl⟩

/-- C1: for a statement list of `n ≥ 2` statements compiled into a
dispatch block whose span ends are strictly increasing (the ordering
the span tracker guarantees along one statement list), executing the
generated dispatch switch from a stored instruction pointer equal to
the span end of statement `k` (`pre` holds statements `1..k-1`, `x` is
statement `k`, `post` holds statements `k+1..n`) runs exactly the
compiled forms of statements `k+1..n`, in source order, once each, and
none of statements `1..k`: the execution trace is precisely the
compiled forms of `post`. -/
theorem dispatch_skip_property (spans : Stmt → Span) (pre post : List Stmt) (x : Stmt)
    (hlen : 2 ≤ (pre ++ x :: post).length)
    (hpair : ((pre ++ x :: post).map (fun s => (spans s).«end»)).Pairwise (· < ·))
    (hctrl : ∀ s ∈ post, isDispatchControl (compiledOf spans s) = false) :
    (execSwitch (compileDispatch spans (pre ++ x :: post)) ⟨(spans x).«end», []⟩).trace
      = post.map (compiledOf spans) := by
  have hpair2 : (pre ++ x :: post).Pairwise (fun a b => (spans a).«end» < (spans b).«end») :=
    List.pairwise_map.mp hpair
  obtain ⟨hpre, hxpost, hcross⟩ := List.pairwise_append.mp hpair2
  show (findAndRun (dispatchCases spans (pre ++ x :: post)) ⟨(spans x).«end», []⟩).trace = _
  rw [findAndRun_dispatch_front spans pre (x :: post) _ (by simp)
    (fun s hs => by
      show ¬ (spans x).«end» < (spans s).«end»
      have := hcross s hs x (by simp)
      omega)]
  cases post with
  | nil =>
    simp only [dispatchCases]
    rw [findAndRun_skip]
    · rfl
    · simp [evalGuard_ipLess]
  | cons p ps =>
    simp only [dispatchCases]
    rw [findAndRun_skip _ _ _ _ (by simp [evalGuard_ipLess])]
    obtain ⟨body, tail, hd⟩ := dispatchCases_cons_head spans p ps
    rw [hd]
    have hguard : ([ipLessE ((spans p).«end»)]).any (evalGuard ⟨(spans x).«end», []⟩) = true := by
      simp only [List.any_cons, List.any_nil, Bool.or_false, evalGuard_ipLess, decide_eq_true_iff]
      exact (List.pairwise_cons.mp hxpost).1 p (by simp)
    simp only [findAndRun, hguard, if_true]
    rw [← hd]
    rw [runCases_dispatch spans (p :: ps) _ hctrl]
    simp

/-- Concrete fixtures used by the closed witnesses: three opaque
expression statements and a span map giving them the ranges
`[0,1)`, `[1,2)`, `[2,3)`. -/
def wA : Stmt := .exprStmt (.ident "a" .noObj)

/-- Second fixture statement. -/
def wB : Stmt := .exprStmt (.ident "b" .noObj)

/-- Third fixture statement. -/
def wC : Stmt := .exprStmt (.ident "c" .noObj)

/-- Fixture span map for `wA`, `wB`, `wC`. -/
def spW : Stmt → Span
  | .exprStmt (.ident "a" _) => ⟨0, 1⟩
  | .exprStmt (.ident "b" _) => ⟨1, 2⟩
  | _ => ⟨2, 3⟩

/-- Witness for C1: on the concrete three-statement list with span ends
1, 2, 3 and stored instruction pointer 1 (the span end of statement 1),
the dispatch switch executes exactly the compiled forms of statements
2 and 3. -/
theorem dispatch_skip_property_witness :
    (execSwitch (compileDispatch spW [wA, wB, wC]) ⟨1, []⟩).trace
      = [wB, wC].map (compiledOf spW) :=
  dispatch_skip_property spW [] [wB, wC] wA (by simp) (by decide)
    (by intro s hs; fin_cases hs <;> rfl)

/-- C2: statement-list rewriting.  A block body with zero statements is
left in place and one with a single statement is rewritten in place
(recursing into the statement); two or more statements become a single
switch (`compileDispatch`).  Case `i` of the dispatch switch is guarded
by `_f.IP < end_i` (that statement's span end) and its body is the
compiled statement followed, for every statement except the last, by
the assignment `_f.IP = end_i` and an unconditional `fallthrough`.
Switch-statement case bodies recurse through `compileList` into the
same one-or-many rule for case clauses. -/
theorem statement_list_rewriting (spans : Stmt → Span) :
    (compileStatement spans (.blockStmt []) = .blockStmt []) ∧
    (∀ s, compileStatement spans (.blockStmt [s]) =
      .blockStmt [unnestBlocks (compileStatement spans s)]) ∧
    (∀ s1 s2 rest, compileStatement spans (.blockStmt (s1 :: s2 :: rest)) =
      .blockStmt [compileDispatch spans (s1 :: s2 :: rest)]) ∧
    (∀ l, compileDispatch spans l = .switchStmt none none (.blockStmt (dispatchCases spans l))) ∧
    (∀ l, (dispatchCases spans l).length = l.length) ∧
    (∀ (l : List Stmt) (i : Nat) (h : i < l.length),
      (dispatchCases spans l).get ⟨i, by rw [dispatchCases_length]; exact h⟩ =
        .caseClause [ipLessE ((spans (l.get ⟨i, h⟩)).«end»)]
          ([compiledOf spans (l.get ⟨i, h⟩)] ++
            (if i < l.length - 1 then
              [ipAssignS ((spans (l.get ⟨i, h⟩)).«end»), fallthroughS]
            else []))) ∧
    (∀ gs, compileStatement spans (.caseClause gs []) = .caseClause gs []) ∧
    (∀ gs s, compileStatement spans (.caseClause gs [s]) =
      .caseClause gs [unnestBlocks (compileStatement spans s)]) ∧
    (∀ gs s1 s2 rest, compileStatement spans (.caseClause gs (s1 :: s2 :: rest)) =
      .caseClause gs [compileDispatch spans (s1 :: s2 :: rest)]) ∧
    (∀ ini tag l, compileStatement spans (.switchStmt ini tag (.blockStmt l)) =
      .switchStmt ini tag (.blockStmt (compileList spans l))) ∧
    (∀ l, compileList spans l = l.map (compileStatement spans)) := by
  refine ⟨rfl, fun s => rfl, fun s1 s2 rest => rfl, fun l => rfl,
    dispatchCases_length spans, dispatchCases_get spans,
    fun gs => rfl, fun gs s => rfl, fun gs s1 s2 rest => rfl,
    fun ini tag l => rfl, ?_⟩
  intro l
  induction l with
  | nil => rfl
  | cons s rest ih => simp [compileList, ih]

/-- Witness for C2: case 0 of the dispatch block over the two concrete
statements `wA, wB` has the stated guard and body shape. -/
theorem statement_list_rewriting_witness :
    (dispatchCases spW [wA, wB]).get ⟨0, by rw [dispatchCases_length]; decide⟩ =
      .caseClause [ipLessE ((spW (([wA, wB] : List Stmt).get ⟨0, by decide⟩)).«end»)]
        ([compiledOf spW (([wA, wB] : List Stmt).get ⟨0, by decide⟩)] ++
          (if 0 < ([wA, wB] : List Stmt).length - 1 then
            [ipAssignS ((spW (([wA, wB] : List Stmt).get ⟨0, by decide⟩)).«end»), fallthroughS]
          else [])) := by
  exact (statement_list_rewriting spW).2.2.2.2.2.1 [wA, wB] 0 (by decide)

/-- C3: for every for-loop, the compiled loop body is the compiled form
of the original body block with one extra final statement: the
assignment resetting `_f.IP` to the loop's span start — which, under
the span tracker (modelled from the spec, section 4.4), is the same
counter as the loop body's span start, so every new physical entry into
the body re-dispatches from the body's first statement. -/
theorem loop_reentry_reset (spans : Stmt → Span) (ini : Option Stmt) (cond : Option Expr)
    (post : Option Stmt) (l : List Stmt) :
    (∃ l2, compileStatement spans (.blockStmt l) = .blockStmt l2 ∧
      compileStatement spans (.forStmt ini cond post (.blockStmt l)) =
        .forStmt ini cond post
          (.blockStmt (l2 ++
            [ipAssignS ((spans (.forStmt ini cond post (.blockStmt l))).start)]))) ∧
    (∀ n, (trackSpans (.forStmt ini cond post (.blockStmt l)) n).start =
      (trackSpans (.blockStmt l) n).start) := by
  obtain ⟨l2, h2⟩ := compileStatement_block spans l
  refine ⟨⟨l2, h2, ?_⟩, fun n => rfl⟩
  show Stmt.forStmt ini cond post
      (appendToBlock (compileStatement spans (.blockStmt l))
        (ipAssignS ((spans (.forStmt ini cond post (.blockStmt l))).start))) = _
  rw [h2]
  rfl

/-! ## The generated prologue and epilogue -/

/-- `restoreStmts` emits one restore per plan entry. -/
theorem restoreStmts_length : ∀ (plan : List (String × Ty)) (k : Nat),
    (restoreStmts k plan).length = plan.length
  | [], _ => rfl
  | (nm, ty) :: rest, k => by
    simp [restoreStmts, restoreStmts_length rest (k + 1)]

/-- The shape of restore `i` (counting slots from `k`): an assignment
of `_f.Get(k+i)` type-asserted against the slot's declared type to the
slot's name. -/
theorem restoreStmts_get : ∀ (plan : List (String × Ty)) (i k : Nat) (h : i < plan.length),
    (restoreStmts k plan).get ⟨i, by rw [restoreStmts_length]; exact h⟩ =
      .assignStmt [.ident (plan.get ⟨i, h⟩).1 .noObj] .assign
        [.typeAssertExpr
          (.callExpr (.selectorExpr (.ident "_f" .noObj) "Get") [.basicLit (k + i)])
          (typeExpr (plan.get ⟨i, h⟩).2)]
  | (nm, ty) :: rest, 0, k, _ => by simp [restoreStmts]
  | (nm, ty) :: rest, i + 1, k, h => by
    have hlt : i < rest.length := by simp at h; omega
    have ih := restoreStmts_get rest i (k + 1) hlt
    simp only [restoreStmts, List.get_cons_succ] at ih ⊢
    rw [show k + (i + 1) = k + 1 + i by omega]
    exact ih

/-- One step of the evaluator on a generated restore statement. -/
theorem execGen_restore_step (nm : String) (ty : Ty) (i : Nat) (st : GenState) :
    execGen (.assignStmt [.ident nm .noObj] .assign
        [.typeAssertExpr
          (.callExpr (.selectorExpr (.ident "_f" .noObj) "Get") [.basicLit i]) ty]) st =
      if (st.slots i).ty = ty then .ok { st with env := (nm, st.slots i) :: st.env }
      else .error "interface conversion" := rfl

/-- One step of the evaluator on a statement list. -/
theorem execGenList_cons (s : Stmt) (rest : List Stmt) (st : GenState) :
    execGenList (s :: rest) st =
      match execGen s st with
      | .error e => .error e
      | .ok st2 => execGenList rest st2 := rfl

/-- A restore sequence whose slot values all match their declared types
succeeds and binds each plan entry's name to the stored slot value. -/
theorem execGenList_restore_ok :
    ∀ (plan : List (String × Ty)) (i : Nat) (st : GenState),
      slotsMatch st.slots i plan = true →
      execGenList (restoreStmts i plan) st =
        .ok { st with env := (restoredPairs st.slots i plan).reverse ++ st.env }
  | [], i, st, _ => rfl
  | (nm, ty) :: rest, i, st, h => by
    simp only [slotsMatch, Bool.and_eq_true, decide_eq_true_iff] at h
    obtain ⟨h1, h2⟩ := h
    have ih := execGenList_restore_ok rest (i + 1)
      { st with env := (nm, st.slots i) :: st.env } h2
    simp only [restoreStmts]
    rw [execGenList_cons, execGen_restore_step,
      if_pos (show (st.slots i).ty = typeExpr ty from h1)]
    show execGenList (restoreStmts (i + 1) rest) { st with env := (nm, st.slots i) :: st.env } = _
    rw [ih]
    simp [restoredPairs]

/-- A restore sequence hitting a slot whose stored type does not match
the declared type is a fatal runtime error. -/
theorem execGenList_restore_error :
    ∀ (plan : List (String × Ty)) (i : Nat) (st : GenState),
      slotsMatch st.slots i plan = false →
      ∃ e, execGenList (restoreStmts i plan) st = .error e
  | [], i, st, h => by simp [slotsMatch] at h
  | (nm, ty) :: rest, i, st, h => by
    simp only [slotsMatch, Bool.and_eq_false_iff] at h
    by_cases h1 : (st.slots i).ty = ty
    · have h2 : slotsMatch st.slots (i + 1) rest = false := by
        rcases h with h | h
        · simp [h1] at h
        · exact h
      obtain ⟨e, he⟩ :=
        execGenList_restore_error rest (i + 1) { st with env := (nm, st.slots i) :: st.env } h2
      refine ⟨e, ?_⟩
      simp only [restoreStmts]
      rw [execGenList_cons, execGen_restore_step,
        if_pos (show (st.slots i).ty = typeExpr ty from h1)]
      show execGenList (restoreStmts (i + 1) rest)
        { st with env := (nm, st.slots i) :: st.env } = _
      exact he
    · refine ⟨"interface conversion", ?_⟩
      simp only [restoreStmts]
      rw [execGenList_cons, execGen_restore_step,
        if_neg (show ¬ (st.slots i).ty = typeExpr ty from h1)]

/-- The evaluator on the restore guard reduces to the branch on
`_f.IP > 0`. -/
theorem execGen_restoreIf (plan : List (String × Ty)) (st : GenState) :
    execGen (restoreIf plan) st =
      if st.ip > 0 then execGenList (restoreStmts 0 plan) st else .ok st := rfl

/-- C4: the generated prologue restores the planned slots exactly when
the frame's instruction pointer is strictly greater than zero: with
`IP = 0` the guarded block is skipped and the state is unchanged; with
`IP > 0` each slot `i` is restored by `_f.Get(i)` followed by a checked
type assertion against the slot's declared type (the emitted statements
have exactly that shape), binding every planned name to its stored
value when the types match and raising a fatal runtime error at resume
time when any slot's stored type differs. -/
theorem prologue_restore (plan : List (String × Ty)) (st : GenState) :
    (restoreIf plan = .ifStmt none (.binaryExpr frameIP .gtr (.basicLit 0))
      (.blockStmt (restoreStmts 0 plan)) none) ∧
    (∀ (i k : Nat) (h : i < plan.length),
      (restoreStmts k plan).get ⟨i, by rw [restoreStmts_length]; exact h⟩ =
        .assignStmt [.ident (plan.get ⟨i, h⟩).1 .noObj] .assign
          [.typeAssertExpr
            (.callExpr (.selectorExpr (.ident "_f" .noObj) "Get") [.basicLit (k + i)])
            (typeExpr (plan.get ⟨i, h⟩).2)]) ∧
    (st.ip = 0 → execGen (restoreIf plan) st = .ok st) ∧
    (0 < st.ip → execGen (restoreIf plan) st = execGenList (restoreStmts 0 plan) st) ∧
    (0 < st.ip → slotsMatch st.slots 0 plan = true →
      execGen (restoreIf plan) st =
        .ok { st with env := (restoredPairs st.slots 0 plan).reverse ++ st.env }) ∧
    (0 < st.ip → slotsMatch st.slots 0 plan = false →
      ∃ e, execGen (restoreIf plan) st = .error e) := by
  refine ⟨rfl, fun i k h => restoreStmts_get plan i k h, ?_, ?_, ?_, ?_⟩
  · intro h0
    rw [execGen_restoreIf]
    simp [h0]
  · intro hpos
    rw [execGen_restoreIf, if_pos hpos]
  · intro hpos hm
    rw [execGen_restoreIf, if_pos hpos]
    exact execGenList_restore_ok plan 0 st hm
  · intro hpos hm
    rw [execGen_restoreIf, if_pos hpos]
    exact execGenList_restore_error plan 0 st hm

/-- Fixture plan for the prologue/epilogue witnesses: one slot named
`x` of type code 5. -/
def wPlan : List (String × Ty) := [("x", 5)]

/-- Fixture state: a resumption (`IP = 1`) whose slot 0 holds a value
of the matching type code 5. -/
def wSt : GenState :=
  { ip := 1, unwinding := false, slots := fun _ => ⟨5, 42⟩, env := [], sets := [],
    popped := false }

/-- Witness for C4: on the concrete one-slot plan and a resumption
state with a matching stored value, the prologue restores slot 0. -/
theorem prologue_restore_witness :
    execGen (restoreIf wPlan) wSt =
      .ok { wSt with env := (restoredPairs wSt.slots 0 wPlan).reverse ++ wSt.env } :=
  (prologue_restore wPlan wSt).2.2.2.2.1 (by decide) (by decide)

/-- Every save sequence succeeds and records exactly the planned
`Set(i, name)` calls, in slot order, without touching the frame
otherwise. -/
theorem execGenList_save :
    ∀ (plan : List (String × Ty)) (i : Nat) (st : GenState),
      execGenList (saveStmts i plan) st =
        .ok { st with sets := st.sets ++ savedPairs st.env i plan }
  | [], i, st => by simp [saveStmts, execGenList, savedPairs]
  | (nm, ty) :: rest, i, st => by
    have ih := execGenList_save rest (i + 1)
      { st with sets := st.sets ++ [(i, envLookup st.env nm)] }
    simp only [saveStmts]
    rw [execGenList_cons]
    show execGenList (saveStmts (i + 1) rest)
      { st with sets := st.sets ++ [(i, envLookup st.env nm)] } = _
    rw [ih]
    simp [savedPairs]

/-- The evaluator on the epilogue body reduces to the branch on
`_c.Unwinding()`. -/
theorem execGen_epilogueIf (plan : List (String × Ty)) (st : GenState) :
    execGen (epilogueIf plan) st =
      if st.unwinding then execGenList (saveStmts 0 plan) st
      else execGenList
        [.exprStmt (.callExpr (.selectorExpr (.ident "_c" .noObj) "Pop") [])] st := rfl

/-- C5: the generated epilogue is a deferred closure around a single
branch on `_c.Unwinding()`: on a suspension exit it performs exactly
the planned `_f.Set(i, name)` writes, in slot order, and does not pop
the frame; on a normal return it calls `_c.Pop()` and performs no slot
writes. -/
theorem epilogue_save_pop (plan : List (String × Ty)) (st : GenState) :
    (deferSave plan = .deferStmt (.callExpr (.funcLit [epilogueIf plan]) [])) ∧
    (st.unwinding = true → execGen (epilogueIf plan) st =
      .ok { st with sets := st.sets ++ savedPairs st.env 0 plan }) ∧
    (st.unwinding = false → execGen (epilogueIf plan) st = .ok { st with popped := true }) := by
  refine ⟨rfl, ?_, ?_⟩
  · intro hu
    have hl : execGen (epilogueIf plan) st = execGenList (saveStmts 0 plan) st := by
      rw [execGen_epilogueIf, hu]
      rfl
    rw [hl]
    exact execGenList_save plan 0 st
  · intro hu
    have hl : execGen (epilogueIf plan) st =
        execGenList
          [.exprStmt (.callExpr (.selectorExpr (.ident "_c" .noObj) "Pop") [])] st := by
      rw [execGen_epilogueIf, hu]
      rfl
    rw [hl]
    rfl

/-- Fixture state for the unwinding (suspension) exit. -/
def wStU : GenState :=
  { ip := 1, unwinding := true, slots := fun _ => ⟨5, 42⟩,
    env := [("x", ⟨5, 7⟩)], sets := [], popped := false }

/-- Witness for C5: on the concrete plan, the epilogue body saves slot
0 when unwinding and pops the frame when not. -/
theorem epilogue_save_pop_witness :
    execGen (epilogueIf wPlan) wStU =
        .ok { wStU with sets := wStU.sets ++ savedPairs wStU.env 0 wPlan } ∧
      execGen (epilogueIf wPlan) wSt = .ok { wSt with popped := true } :=
  ⟨(epilogue_save_pop wPlan wStU).2.1 rfl, (epilogue_save_pop wPlan wSt).2.2 rfl⟩

/-! ## Once the error variable is set, the walks keep an error

`ast.Inspect` prunes an errored subtree but still visits its siblings,
whose callbacks may overwrite (never clear) the error; these lemmas
record that the walk's result stays `some`. -/

/-- A visit step with a recorded error leaves an error. -/
theorem gateStep_some (c : Option String) (e : String) (k : Option String) :
    ∃ m, gateStep c (some e) k = some m := by
  cases c with
  | none => exact ⟨e, rfl⟩
  | some m => exact ⟨m, rfl⟩

/-- A visit step whose callback fires leaves an error. -/
theorem gateStep_isSome_of_c (c err k : Option String) (hc : c.isSome = true) :
    (gateStep c err k).isSome = true := by
  cases c with
  | none => simp at hc
  | some m => rfl

/-- A visit step whose children's walk errors leaves an error. -/
theorem gateStep_isSome_of_k (c err k : Option String) (hk : k.isSome = true) :
    (gateStep c err k).isSome = true := by
  cases c with
  | none =>
    cases err with
    | none => exact hk
    | some e => rfl
  | some m => rfl

/-- A statement visited with a recorded error leaves an error. -/
theorem inspectStmt_some (cS : Stmt → Option String) (cE : Expr → Option String)
    (e : String) (s : Stmt) : ∃ m, inspectStmt cS cE (some e) s = some m := by
  cases s <;> (simp only [inspectStmt]; exact gateStep_some _ e _)

/-- An expression visited with a recorded error leaves an error. -/
theorem inspectExpr_some (cS : Stmt → Option String) (cE : Expr → Option String)
    (e : String) (x : Expr) : ∃ m, inspectExpr cS cE (some e) x = some m := by
  cases x <;> (simp only [inspectExpr]; exact gateStep_some _ e _)

/-- A statement list visited with a recorded error leaves an error. -/
theorem inspectStmts_some (cS : Stmt → Option String) (cE : Expr → Option String) :
    ∀ (l : List Stmt) (e : String), ∃ m, inspectStmts cS cE (some e) l = some m
  | [], e => ⟨e, rfl⟩
  | s :: rest, e => by
    obtain ⟨m, hm⟩ := inspectStmt_some cS cE e s
    simp only [inspectStmts]
    rw [hm]
    exact inspectStmts_some cS cE rest m

/-- An expression list visited with a recorded error leaves an error. -/
theorem inspectExprs_some (cS : Stmt → Option String) (cE : Expr → Option String) :
    ∀ (l : List Expr) (e : String), ∃ m, inspectExprs cS cE (some e) l = some m
  | [], e => ⟨e, rfl⟩
  | x :: rest, e => by
    obtain ⟨m, hm⟩ := inspectExpr_some cS cE e x
    simp only [inspectExprs]
    rw [hm]
    exact inspectExprs_some cS cE rest m

/-- `isSome` form of the stickiness lemmas. -/
theorem inspectStmt_mono (cS : Stmt → Option String) (cE : Expr → Option String)
    (err : Option String) (s : Stmt) (h : err.isSome = true) :
    (inspectStmt cS cE err s).isSome = true := by
  obtain ⟨e, he⟩ := Option.isSome_iff_exists.mp h
  subst he
  obtain ⟨m, hm⟩ := inspectStmt_some cS cE e s
  simp [hm]

/-- Stickiness for expressions, in `isSome` form. -/
theorem inspectExpr_mono (cS : Stmt → Option String) (cE : Expr → Option String)
    (err : Option String) (x : Expr) (h : err.isSome = true) :
    (inspectExpr cS cE err x).isSome = true := by
  obtain ⟨e, he⟩ := Option.isSome_iff_exists.mp h
  subst he
  obtain ⟨m, hm⟩ := inspectExpr_some cS cE e x
  simp [hm]

/-- Stickiness for statement lists, in `isSome` form. -/
theorem inspectStmts_mono (cS : Stmt → Option String) (cE : Expr → Option String)
    (err : Option String) (l : List Stmt) (h : err.isSome = true) :
    (inspectStmts cS cE err l).isSome = true := by
  obtain ⟨e, he⟩ := Option.isSome_iff_exists.mp h
  subst he
  obtain ⟨m, hm⟩ := inspectStmts_some cS cE l e
  simp [hm]

/-- Stickiness for expression lists, in `isSome` form. -/
theorem inspectExprs_mono (cS : Stmt → Option String) (cE : Expr → Option String)
    (err : Option String) (l : List Expr) (h : err.isSome = true) :
    (inspectExprs cS cE err l).isSome = true := by
  obtain ⟨e, he⟩ := Option.isSome_iff_exists.mp h
  subst he
  obtain ⟨m, hm⟩ := inspectExprs_some cS cE l e
  simp [hm]

/-- Stickiness for optional statements, in `isSome` form. -/
theorem inspectOptStmt_mono (cS : Stmt → Option String) (cE : Expr → Option String)
    (err : Option String) (o : Option Stmt) (h : err.isSome = true) :
    (inspectOptStmt cS cE err o).isSome = true := by
  cases o with
  | none => exact h
  | some s => exact inspectStmt_mono cS cE err s h

/-- Stickiness for optional expressions, in `isSome` form. -/
theorem inspectOptExpr_mono (cS : Stmt → Option String) (cE : Expr → Option String)
    (err : Option String) (o : Option Expr) (h : err.isSome = true) :
    (inspectOptExpr cS cE err o).isSome = true := by
  cases o with
  | none => exact h
  | some x => exact inspectExpr_mono cS cE err x h

/-! ## Completeness of the walks: a violating node forces an error

If the tree contains a node on which the callback fires, the whole
`ast.Inspect` walk ends with an error, whatever error state it starts
from. -/

section InspectFires

/-- Common parameters of the completeness family: the two callbacks,
the two containment predicates, and the proofs that a node satisfying a
predicate makes its callback fire. -/
structure FireCtx where
  cS : Stmt → Option String
  cE : Expr → Option String
  pS : Stmt → Bool
  pE : Expr → Bool
  hS : ∀ s, pS s = true → (cS s).isSome = true
  hE : ∀ e, pE e = true → (cE e).isSome = true

mutual
/-- A statement containing a node on which a callback fires makes the
walk produce an error. -/
theorem anyStmt_fires (C : FireCtx) : ∀ (s : Stmt) (err : Option String),
    anyStmt C.pS C.pE s = true → (inspectStmt C.cS C.cE err s).isSome = true
  | .declStmt specs, err, h => by
    simp only [anyStmt, Bool.or_false] at h
    simp only [inspectStmt]
    exact gateStep_isSome_of_c _ _ _ (C.hS _ h)
  | .emptyStmt, err, h => by
    simp only [anyStmt, Bool.or_false] at h
    simp only [inspectStmt]
    exact gateStep_isSome_of_c _ _ _ (C.hS _ h)
  | .labeledStmt lbl s1, err, h => by
    simp only [anyStmt] at h
    simp only [inspectStmt]
    rcases Bool.or_eq_true_iff.mp h with hp | hc
    · exact gateStep_isSome_of_c _ _ _ (C.hS _ hp)
    · exact gateStep_isSome_of_k _ _ _ (anyStmt_fires C s1 none hc)
  | .exprStmt x, err, h => by
    simp only [anyStmt] at h
    simp only [inspectStmt]
    rcases Bool.or_eq_true_iff.mp h with hp | hc
    · exact gateStep_isSome_of_c _ _ _ (C.hS _ hp)
    · exact gateStep_isSome_of_k _ _ _ (anyExpr_fires C x none hc)
  | .sendStmt ch v, err, h => by
    simp only [anyStmt] at h
    simp only [inspectStmt]
    rcases Bool.or_eq_true_iff.mp h with hp | hc
    · exact gateStep_isSome_of_c _ _ _ (C.hS _ hp)
    · rcases Bool.or_eq_true_iff.mp hc with h1 | h2
      · exact gateStep_isSome_of_k _ _ _
          (inspectExpr_mono C.cS C.cE _ v (anyExpr_fires C ch none h1))
      · exact gateStep_isSome_of_k _ _ _ (anyExpr_fires C v _ h2)
  | .incDecStmt x, err, h => by
    simp only [anyStmt] at h
    simp only [inspectStmt]
    rcases Bool.or_eq_true_iff.mp h with hp | hc
    · exact gateStep_isSome_of_c _ _ _ (C.hS _ hp)
    · exact gateStep_isSome_of_k _ _ _ (anyExpr_fires C x none hc)
  | .assignStmt lhs tok rhs, err, h => by
    simp only [anyStmt] at h
    simp only [inspectStmt]
    rcases Bool.or_eq_true_iff.mp h with hp | hc
    · exact gateStep_isSome_of_c _ _ _ (C.hS _ hp)
    · rcases Bool.or_eq_true_iff.mp hc with h1 | h2
      · exact gateStep_isSome_of_k _ _ _
          (inspectExprs_mono C.cS C.cE _ rhs (anyExprs_fires C lhs none h1))
      · exact gateStep_isSome_of_k _ _ _ (anyExprs_fires C rhs _ h2)
  | .goStmt call, err, h => by
    simp only [anyStmt] at h
    simp only [inspectStmt]
    rcases Bool.or_eq_true_iff.mp h with hp | hc
    · exact gateStep_isSome_of_c _ _ _ (C.hS _ hp)
    · exact gateStep_isSome_of_k _ _ _ (anyExpr_fires C call none hc)
  | .deferStmt call, err, h => by
    simp only [anyStmt] at h
    simp only [inspectStmt]
    rcases Bool.or_eq_true_iff.mp h with hp | hc
    · exact gateStep_isSome_of_c _ _ _ (C.hS _ hp)
    · exact gateStep_isSome_of_k _ _ _ (anyExpr_fires C call none hc)
  | .returnStmt results, err, h => by
    simp only [anyStmt] at h
    simp only [inspectStmt]
    rcases Bool.or_eq_true_iff.mp h with hp | hc
    · exact gateStep_isSome_of_c _ _ _ (C.hS _ hp)
    · exact gateStep_isSome_of_k _ _ _ (anyExprs_fires C results none hc)
  | .branchStmt tok lbl, err, h => by
    simp only [anyStmt, Bool.or_false] at h
    simp only [inspectStmt]
    exact gateStep_isSome_of_c _ _ _ (C.hS _ h)
  | .blockStmt l, err, h => by
    simp only [anyStmt] at h
    simp only [inspectStmt]
    rcases Bool.or_eq_true_iff.mp h with hp | hc
    · exact gateStep_isSome_of_c _ _ _ (C.hS _ hp)
    · exact gateStep_isSome_of_k _ _ _ (anyStmts_fires C l none hc)
  | .ifStmt ini cond body els, err, h => by
    simp only [anyStmt] at h
    simp only [inspectStmt]
    rcases Bool.or_eq_true_iff.mp h with hp | hc
    · exact gateStep_isSome_of_c _ _ _ (C.hS _ hp)
    · rcases Bool.or_eq_true_iff.mp hc with h1 | h234
      · rcases Bool.or_eq_true_iff.mp h1 with h12 | h3
        · rcases Bool.or_eq_true_iff.mp h12 with h1a | h2a
          · exact gateStep_isSome_of_k _ _ _
              (inspectOptStmt_mono C.cS C.cE _ els
                (inspectStmt_mono C.cS C.cE _ body
                  (inspectExpr_mono C.cS C.cE _ cond (anyOptStmt_fires C ini none h1a))))
          · exact gateStep_isSome_of_k _ _ _
              (inspectOptStmt_mono C.cS C.cE _ els
                (inspectStmt_mono C.cS C.cE _ body (anyExpr_fires C cond _ h2a)))
        · exact gateStep_isSome_of_k _ _ _
            (inspectOptStmt_mono C.cS C.cE _ els (anyStmt_fires C body _ h3))
      · exact gateStep_isSome_of_k _ _ _ (anyOptStmt_fires C els _ h234)
  | .caseClause guards body, err, h => by
    simp only [anyStmt] at h
    simp only [inspectStmt]
    rcases Bool.or_eq_true_iff.mp h with hp | hc
    · exact gateStep_isSome_of_c _ _ _ (C.hS _ hp)
    · rcases Bool.or_eq_true_iff.mp hc with h1 | h2
      · exact gateStep_isSome_of_k _ _ _
          (inspectStmts_mono C.cS C.cE _ body (anyExprs_fires C guards none h1))
      · exact gateStep_isSome_of_k _ _ _ (anyStmts_fires C body _ h2)
  | .switchStmt ini tag body, err, h => by
    simp only [anyStmt] at h
    simp only [inspectStmt]
    rcases Bool.or_eq_true_iff.mp h with hp | hc
    · exact gateStep_isSome_of_c _ _ _ (C.hS _ hp)
    · rcases Bool.or_eq_true_iff.mp hc with h12 | h3
      · rcases Bool.or_eq_true_iff.mp h12 with h1 | h2
        · exact gateStep_isSome_of_k _ _ _
            (inspectStmt_mono C.cS C.cE _ body
              (inspectOptExpr_mono C.cS C.cE _ tag (anyOptStmt_fires C ini none h1)))
        · exact gateStep_isSome_of_k _ _ _
            (inspectStmt_mono C.cS C.cE _ body (anyOptExpr_fires C tag _ h2))
      · exact gateStep_isSome_of_k _ _ _ (anyStmt_fires C body _ h3)
  | .typeSwitchStmt ini assign body, err, h => by
    simp only [anyStmt] at h
    simp only [inspectStmt]
    rcases Bool.or_eq_true_iff.mp h with hp | hc
    · exact gateStep_isSome_of_c _ _ _ (C.hS _ hp)
    · rcases Bool.or_eq_true_iff.mp hc with h12 | h3
      · rcases Bool.or_eq_true_iff.mp h12 with h1 | h2
        · exact gateStep_isSome_of_k _ _ _
            (inspectStmt_mono C.cS C.cE _ body
              (inspectStmt_mono C.cS C.cE _ assign (anyOptStmt_fires C ini none h1)))
        · exact gateStep_isSome_of_k _ _ _
            (inspectStmt_mono C.cS C.cE _ body (anyStmt_fires C assign _ h2))
      · exact gateStep_isSome_of_k _ _ _ (anyStmt_fires C body _ h3)
  | .commClause comm body, err, h => by
    simp only [anyStmt] at h
    simp only [inspectStmt]
    rcases Bool.or_eq_true_iff.mp h with hp | hc
    · exact gateStep_isSome_of_c _ _ _ (C.hS _ hp)
    · rcases Bool.or_eq_true_iff.mp hc with h1 | h2
      · exact gateStep_isSome_of_k _ _ _
          (inspectStmts_mono C.cS C.cE _ body (anyOptStmt_fires C comm none h1))
      · exact gateStep_isSome_of_k _ _ _ (anyStmts_fires C body _ h2)
  | .selectStmt body, err, h => by
    simp only [anyStmt] at h
    simp only [inspectStmt]
    rcases Bool.or_eq_true_iff.mp h with hp | hc
    · exact gateStep_isSome_of_c _ _ _ (C.hS _ hp)
    · exact gateStep_isSome_of_k _ _ _ (anyStmt_fires C body none hc)
  | .forStmt ini cond post body, err, h => by
    simp only [anyStmt] at h
    simp only [inspectStmt]
    rcases Bool.or_eq_true_iff.mp h with hp | hc
    · exact gateStep_isSome_of_c _ _ _ (C.hS _ hp)
    · rcases Bool.or_eq_true_iff.mp hc with h123 | h4
      · rcases Bool.or_eq_true_iff.mp h123 with h12 | h3
        · rcases Bool.or_eq_true_iff.mp h12 with h1 | h2
          · exact gateStep_isSome_of_k _ _ _
              (inspectStmt_mono C.cS C.cE _ body
                (inspectOptStmt_mono C.cS C.cE _ post
                  (inspectOptExpr_mono C.cS C.cE _ cond (anyOptStmt_fires C ini none h1))))
          · exact gateStep_isSome_of_k _ _ _
              (inspectStmt_mono C.cS C.cE _ body
                (inspectOptStmt_mono C.cS C.cE _ post (anyOptExpr_fires C cond _ h2)))
        · exact gateStep_isSome_of_k _ _ _
            (inspectStmt_mono C.cS C.cE _ body (anyOptStmt_fires C post _ h3))
      · exact gateStep_isSome_of_k _ _ _ (anyStmt_fires C body _ h4)
  | .rangeStmt key value x k body, err, h => by
    simp only [anyStmt] at h
    simp only [inspectStmt]
    rcases Bool.or_eq_true_iff.mp h with hp | hc
    · exact gateStep_isSome_of_c _ _ _ (C.hS _ hp)
    · rcases Bool.or_eq_true_iff.mp hc with h123 | h4
      · rcases Bool.or_eq_true_iff.mp h123 with h12 | h3
        · rcases Bool.or_eq_true_iff.mp h12 with h1 | h2
          · exact gateStep_isSome_of_k _ _ _
              (inspectStmt_mono C.cS C.cE _ body
                (inspectExpr_mono C.cS C.cE _ x
                  (inspectOptExpr_mono C.cS C.cE _ value (anyOptExpr_fires C key none h1))))
          · exact gateStep_isSome_of_k _ _ _
              (inspectStmt_mono C.cS C.cE _ body
                (inspectExpr_mono C.cS C.cE _ x (anyOptExpr_fires C value _ h2)))
        · exact gateStep_isSome_of_k _ _ _
            (inspectStmt_mono C.cS C.cE _ body (anyExpr_fires C x _ h3))
      · exact gateStep_isSome_of_k _ _ _ (anyStmt_fires C body _ h4)

/-- An expression containing a node on which a callback fires makes the
walk produce an error. -/
theorem anyExpr_fires (C : FireCtx) : ∀ (x : Expr) (err : Option String),
    anyExpr C.pS C.pE x = true → (inspectExpr C.cS C.cE err x).isSome = true
  | .ident nm obj, err, h => by
    simp only [anyExpr, Bool.or_false] at h
    simp only [inspectExpr]
    exact gateStep_isSome_of_c _ _ _ (C.hE _ h)
  | .basicLit v, err, h => by
    simp only [anyExpr, Bool.or_false] at h
    simp only [inspectExpr]
    exact gateStep_isSome_of_c _ _ _ (C.hE _ h)
  | .funcLit body, err, h => by
    simp only [anyExpr] at h
    simp only [inspectExpr]
    rcases Bool.or_eq_true_iff.mp h with hp | hc
    · exact gateStep_isSome_of_c _ _ _ (C.hE _ hp)
    · exact gateStep_isSome_of_k _ _ _ (anyStmts_fires C body none hc)
  | .selectorExpr x sel, err, h => by
    simp only [anyExpr] at h
    simp only [inspectExpr]
    rcases Bool.or_eq_true_iff.mp h with hp | hc
    · exact gateStep_isSome_of_c _ _ _ (C.hE _ hp)
    · exact gateStep_isSome_of_k _ _ _ (anyExpr_fires C x none hc)
  | .callExpr fn args, err, h => by
    simp only [anyExpr] at h
    simp only [inspectExpr]
    rcases Bool.or_eq_true_iff.mp h with hp | hc
    · exact gateStep_isSome_of_c _ _ _ (C.hE _ hp)
    · rcases Bool.or_eq_true_iff.mp hc with h1 | h2
      · exact gateStep_isSome_of_k _ _ _
          (inspectExprs_mono C.cS C.cE _ args (anyExpr_fires C fn none h1))
      · exact gateStep_isSome_of_k _ _ _ (anyExprs_fires C args _ h2)
  | .binaryExpr x op y, err, h => by
    simp only [anyExpr] at h
    simp only [inspectExpr]
    rcases Bool.or_eq_true_iff.mp h with hp | hc
    · exact gateStep_isSome_of_c _ _ _ (C.hE _ hp)
    · rcases Bool.or_eq_true_iff.mp hc with h1 | h2
      · exact gateStep_isSome_of_k _ _ _
          (inspectExpr_mono C.cS C.cE _ y (anyExpr_fires C x none h1))
      · exact gateStep_isSome_of_k _ _ _ (anyExpr_fires C y _ h2)
  | .typeAssertExpr x ty, err, h => by
    simp only [anyExpr] at h
    simp only [inspectExpr]
    rcases Bool.or_eq_true_iff.mp h with hp | hc
    · exact gateStep_isSome_of_c _ _ _ (C.hE _ hp)
    · exact gateStep_isSome_of_k _ _ _ (anyExpr_fires C x none hc)
  | .indexListExpr x indices, err, h => by
    simp only [anyExpr] at h
    simp only [inspectExpr]
    rcases Bool.or_eq_true_iff.mp h with hp | hc
    · exact gateStep_isSome_of_c _ _ _ (C.hE _ hp)
    · exact gateStep_isSome_of_k _ _ _ (anyExpr_fires C x none hc)

/-- A statement list containing a violating node makes the walk
produce an error. -/
theorem anyStmts_fires (C : FireCtx) : ∀ (l : List Stmt) (err : Option String),
    anyStmts C.pS C.pE l = true → (inspectStmts C.cS C.cE err l).isSome = true
  | [], err, h => by simp [anyStmts] at h
  | s :: rest, err, h => by
    simp only [anyStmts] at h
    simp only [inspectStmts]
    rcases Bool.or_eq_true_iff.mp h with h1 | h2
    · exact inspectStmts_mono C.cS C.cE _ rest (anyStmt_fires C s err h1)
    · exact anyStmts_fires C rest _ h2

/-- An expression list containing a violating node makes the walk
produce an error. -/
theorem anyExprs_fires (C : FireCtx) : ∀ (l : List Expr) (err : Option String),
    anyExprs C.pS C.pE l = true → (inspectExprs C.cS C.cE err l).isSome = true
  | [], err, h => by simp [anyExprs] at h
  | x :: rest, err, h => by
    simp only [anyExprs] at h
    simp only [inspectExprs]
    rcases Bool.or_eq_true_iff.mp h with h1 | h2
    · exact inspectExprs_mono C.cS C.cE _ rest (anyExpr_fires C x err h1)
    · exact anyExprs_fires C rest _ h2

/-- An optional statement containing a violating node makes the walk
produce an error. -/
theorem anyOptStmt_fires (C : FireCtx) : ∀ (o : Option Stmt) (err : Option String),
    anyOptStmt C.pS C.pE o = true → (inspectOptStmt C.cS C.cE err o).isSome = true
  | none, err, h => by simp [anyOptStmt] at h
  | some s, err, h => by
    simp only [anyOptStmt] at h
    exact anyStmt_fires C s err h

/-- An optional expression containing a violating node makes the walk
produce an error. -/
theorem anyOptExpr_fires (C : FireCtx) : ∀ (o : Option Expr) (err : Option String),
    anyOptExpr C.pS C.pE o = true → (inspectOptExpr C.cS C.cE err o).isSome = true
  | none, err, h => by simp [anyOptExpr] at h
  | some x, err, h => by
    simp only [anyOptExpr] at h
    exact anyExpr_fires C x err h
end

end InspectFires

/-! ## C7: the two passes disagree on break and continue -/

/-- A bare (unlabeled) `break` or `continue` statement. -/
def isBareBreakContinue : Stmt → Bool
  | .branchStmt .breakT none => true
  | .branchStmt .continueT none => true
  | _ => false

/-- Does a function body contain a bare `break` or `continue`? -/
def containsBareBreakContinue (body : List Stmt) : Bool :=
  anyStmts isBareBreakContinue (fun _ => false) body

/-- The inline gate's callback fires on every bare break/continue. -/
theorem bareBreakContinue_gate_fires :
    ∀ s, isBareBreakContinue s = true → (gateCheckStmt s).isSome = true := by
  intro s h
  cases s <;> try simp [isBareBreakContinue] at h
  case branchStmt tok lbl =>
    cases tok <;> cases lbl <;> first
      | rfl
      | simp [isBareBreakContinue] at h

/-- Completeness context for the inline gate against bare
break/continue. -/
def gateCtxBreak : FireCtx :=
  { cS := gateCheckStmt, cE := fun _ => none,
    pS := isBareBreakContinue, pE := fun _ => false,
    hS := bareBreakContinue_gate_fires, hE := fun _ h => by simp at h }

/-- Fixture: a colored function body containing both a `defer` and a
bare `break`. -/
def fnBreakDefer : List Stmt :=
  [.deferStmt (.callExpr (.ident "g" .noObj) []), .branchStmt .breakT none]

/-- Counterexample to C7 as stated: the claim's final clause says that
for every input function containing a bare `break` or `continue`
exactly one of the two passes rejects it, but on a function that also
contains a `defer` statement both passes reject (the exclusive-or of
the two rejections is false), while the function does contain a bare
`break`. -/
theorem break_continue_exactly_one_counterexample :
    containsBareBreakContinue fnBreakDefer = true ∧
    (gateValidate fnBreakDefer).isSome = true ∧
    (unsupported fnBreakDefer).isSome = true ∧
    (((gateValidate fnBreakDefer).isSome != (unsupported fnBreakDefer).isSome) = false) :=
  ⟨rfl, rfl, rfl, rfl⟩

/-- C7 (amended): the two validation passes disagree on break and
continue — the inline gating pass of compilePackage rejects every bare
`break` or `continue` with a 'not implemented' error (and hence rejects
every function containing one), while the `unsupported` pass's
branch-statement rule accepts bare break and continue (it rejects only
goto and fallthrough among branch statements); on a function whose only
unsupported construct is the bare break or continue, exactly one of the
two passes rejects it. -/
theorem break_continue_pass_disagreement :
    (∀ tok lbl, tok = BranchTok.breakT ∨ tok = BranchTok.continueT →
      (gateCheckStmt (.branchStmt tok lbl)).isSome = true ∧
      unsupCheckStmt (.branchStmt tok lbl) = none) ∧
    (gateCheckStmt (.branchStmt .breakT none) = some "not implemented: break") ∧
    (gateCheckStmt (.branchStmt .continueT none) = some "not implemented: continue") ∧
    (∀ body, containsBareBreakContinue body = true → (gateValidate body).isSome = true) ∧
    (gateValidate [.branchStmt .breakT none] = some "not implemented: break" ∧
      unsupported [.branchStmt .breakT none] = none ∧
      ((gateValidate [.branchStmt .breakT none]).isSome
          != (unsupported [.branchStmt .breakT none]).isSome) = true) := by
  refine ⟨?_, rfl, rfl, ?_, rfl, rfl, rfl⟩
  · intro tok lbl h
    rcases h with h | h <;> subst h <;> exact ⟨rfl, rfl⟩
  · intro body h
    exact anyStmts_fires gateCtxBreak body none h

/-- Witness for C7 (amended): the singleton bare-break body is rejected
by the inline gate. -/
theorem break_continue_pass_disagreement_witness :
    (gateValidate [.branchStmt .breakT none]).isSome = true :=
  break_continue_pass_disagreement.2.2.2.1 [.branchStmt .breakT none] rfl

/-! ## C8: expression-level rules of the `unsupported` pass -/

/-- A function literal node. -/
def isFuncLitE : Expr → Bool
  | .funcLit _ => true
  | _ => false

/-- An expression with more than one (non-builtin, non-conversion)
function call. -/
def isMultiCallE (e : Expr) : Bool := decide (countFunctionCalls e > 1)

/-- The `unsupported` expression callback fires on function literals. -/
theorem funcLit_unsup_fires : ∀ e, isFuncLitE e = true → (unsupCheckExpr e).isSome = true := by
  intro e h
  cases e <;> simp [isFuncLitE] at h
  case funcLit body =>
    simp only [unsupCheckExpr]
    split
    · rfl
    · rfl

/-- The `unsupported` expression callback fires on expressions with
more than one counted call. -/
theorem multiCall_unsup_fires : ∀ e, isMultiCallE e = true → (unsupCheckExpr e).isSome = true := by
  intro e h
  simp only [unsupCheckExpr]
  rw [if_pos (of_decide_eq_true h)]
  rfl

/-- Completeness context for the `unsupported` pass against function
literals. -/
def unsupCtxFuncLit : FireCtx :=
  { cS := unsupCheckStmt, cE := unsupCheckExpr,
    pS := fun _ => false, pE := isFuncLitE,
    hS := fun _ h => by simp at h, hE := funcLit_unsup_fires }

/-- Completeness context for the `unsupported` pass against
multiple-call expressions. -/
def unsupCtxMultiCall : FireCtx :=
  { cS := unsupCheckStmt, cE := unsupCheckExpr,
    pS := fun _ => false, pE := isMultiCallE,
    hS := fun _ h => by simp at h, hE := multiCall_unsup_fires }

/-- Fixture: an expression holding two counted function calls. -/
def twoCallsE : Expr :=
  .binaryExpr (.callExpr (.ident "f" .funcObj) []) .otherBin (.callExpr (.ident "g" .funcObj) [])

/-- Fixture: a builtin call and one counted call — only one call
counts, so the expression is accepted. -/
def builtinPlusCallE : Expr :=
  .binaryExpr (.callExpr (.ident "len" .builtinObj) [.ident "xs" (.varObj 1)]) .otherBin
    (.callExpr (.ident "g" .funcObj) [])

/-- Fixture: a type conversion and one counted call — conversions are
not counted either. -/
def convPlusCallE : Expr :=
  .binaryExpr (.callExpr (.ident "MyInt" .typeNameObj) [.ident "x" (.varObj 2)]) .otherBin
    (.callExpr (.ident "g" .funcObj) [])

/-- C8: the `unsupported` pass rejects, with a 'not implemented' error,
any function body containing an expression with more than one function
call — calls to universe builtins and type conversions are excluded
from the count, so a builtin or conversion alongside one real call is
accepted — and rejects any function literal anywhere inside the body. -/
theorem unsupported_expression_rules :
    (∀ body, anyStmts (fun _ => false) isMultiCallE body = true →
      (unsupported body).isSome = true) ∧
    (∀ body, anyStmts (fun _ => false) isFuncLitE body = true →
      (unsupported body).isSome = true) ∧
    (countFunctionCalls twoCallsE = 2 ∧
      unsupported [.exprStmt twoCallsE] =
        some "not implemented: multiple function calls in an expression") ∧
    (unsupported [.exprStmt (.funcLit [])] = some "not implemented: func literals") ∧
    (countFunctionCalls builtinPlusCallE = 1 ∧ unsupported [.exprStmt builtinPlusCallE] = none) ∧
    (countFunctionCalls convPlusCallE = 1 ∧ unsupported [.exprStmt convPlusCallE] = none) := by
  refine ⟨?_, ?_, ⟨rfl, rfl⟩, rfl, ⟨rfl, rfl⟩, ⟨rfl, rfl⟩⟩
  · intro body h
    exact anyStmts_fires unsupCtxMultiCall body none h
  · intro body h
    exact anyStmts_fires unsupCtxFuncLit body none h

/-- Witness for C8: the concrete two-call expression statement is
rejected by the `unsupported` pass. -/
theorem unsupported_expression_rules_witness :
    (unsupported [.exprStmt twoCallsE]).isSome = true :=
  unsupported_expression_rules.1 [.exprStmt twoCallsE] rfl

/-! ## C9: unconditionally rejected constructs abort the package -/

/-- The claim's list of unconditionally rejected constructs: defer, go,
labeled statements, select statements and their clauses, type switch,
inline declarations, multi-target or non-identifier assignment targets,
goto and fallthrough. -/
def rejectedConstruct : Stmt → Bool
  | .deferStmt _ => true
  | .goStmt _ => true
  | .labeledStmt _ _ => true
  | .selectStmt _ => true
  | .commClause _ _ => true
  | .typeSwitchStmt _ _ _ => true
  | .declStmt _ => true
  | .assignStmt lhs _ rhs =>
    decide (lhs.length ≠ 1 ∨ lhs.length ≠ rhs.length) ||
      (match lhs.head? with
       | some (.ident _ _) => false
       | _ => true)
  | .branchStmt .gotoT _ => true
  | .branchStmt .fallthroughT _ => true
  | _ => false

/-- The inline gate's callback fires on every rejected construct. -/
theorem rejected_gate_fires :
    ∀ s, rejectedConstruct s = true → (gateCheckStmt s).isSome = true := by
  intro s h
  cases s <;> try rfl
  case emptyStmt => simp [rejectedConstruct] at h
  case exprStmt x => simp [rejectedConstruct] at h
  case sendStmt ch v => simp [rejectedConstruct] at h
  case incDecStmt x => simp [rejectedConstruct] at h
  case returnStmt results => simp [rejectedConstruct] at h
  case blockStmt l => simp [rejectedConstruct] at h
  case ifStmt ini cond body els => simp [rejectedConstruct] at h
  case caseClause guards body => simp [rejectedConstruct] at h
  case switchStmt ini tag body => simp [rejectedConstruct] at h
  case forStmt ini cond post body => simp [rejectedConstruct] at h
  case rangeStmt key value x k body => simp [rejectedConstruct] at h
  case branchStmt tok lbl =>
    cases tok <;> first
      | rfl
      | simp [rejectedConstruct] at h
  case assignStmt lhs tok rhs =>
    simp only [rejectedConstruct] at h
    simp only [gateCheckStmt]
    rcases Bool.or_eq_true_iff.mp h with h1 | h2
    · rw [if_pos (of_decide_eq_true h1)]
      cases hh : lhs.head? with
      | none => rfl
      | some e0 => cases e0 <;> rfl
    · cases hh : lhs.head? with
      | none => rfl
      | some e0 =>
        rw [hh] at h2
        cases e0 <;> simp at h2 <;> rfl

/-- Completeness context for the inline gate against the rejected
construct list. -/
def gateCtxRejected : FireCtx :=
  { cS := gateCheckStmt, cE := fun _ => none,
    pS := rejectedConstruct, pE := fun _ => false,
    hS := rejected_gate_fires, hE := fun _ h => by simp at h }

/-- A colored declaration whose body is gate-rejected aborts the whole
declaration loop. -/
theorem compileDecls_error_of_contains (Γ : Nat → Ty) (spans : Stmt → Span) :
    ∀ (decls : List (FuncDecl × Option (Ty × Ty))) (fn : FuncDecl) (color : Ty × Ty),
      (fn, some color) ∈ decls →
      (gateValidate fn.body).isSome = true →
      ∃ e, compileDecls Γ spans decls = .error e
  | [], fn, color, hmem, _ => by simp at hmem
  | (g, c) :: rest, fn, color, hmem, hbad => by
    rcases List.mem_cons.mp hmem with heq | htail
    · injection heq with h1 h2
      subst h1
      subst h2
      obtain ⟨e, he⟩ := Option.isSome_iff_exists.mp hbad
      refine ⟨e, ?_⟩
      show compileDecls Γ spans ((fn, some color) :: rest) = _
      simp only [compileDecls]
      rw [show gateValidate fn.body = some e from he]
    · obtain ⟨e, he⟩ := compileDecls_error_of_contains Γ spans rest fn color htail hbad
      cases c with
      | none =>
        exact ⟨e, by simp only [compileDecls]; exact he⟩
      | some color2 =>
        cases hg : gateValidate g.body with
        | some e2 =>
          exact ⟨e2, by simp only [compileDecls]; rw [hg]⟩
        | none =>
          refine ⟨e, ?_⟩
          simp only [compileDecls]
          rw [hg, he]

/-- The minimal single-declaration package holding one colored function
with the given body. -/
def pkg1 (body : List Stmt) : Package :=
  ⟨"p", [(⟨"f", ⟨[], []⟩, body⟩, some (0, 0))]⟩

/-- C9: every construct of the unconditionally-rejected list present in
a colored function makes compilePackage return a 'not implemented'
error before the output file is created (an `.error` result carries no
generated file), and on a package whose colored function exhibits one
such construct the error names that construct. -/
theorem rejected_constructs_fail_package (Γ : Nat → Ty) (spans : Stmt → Span)
    (tags : Option String) (p : Package) (fn : FuncDecl) (color : Ty × Ty)
    (hmem : (fn, some color) ∈ p.decls)
    (hbad : anyStmts rejectedConstruct (fun _ => false) fn.body = true) :
    (∃ e, compilePackage Γ spans tags p = .error e) ∧
    (¬ ∃ g, compilePackage Γ spans tags p = .ok g) ∧
    (compilePackage Γ spans tags (pkg1 [.deferStmt (.callExpr (.ident "g" .noObj) [])]) =
      .error "not implemented: defer") ∧
    (compilePackage Γ spans tags (pkg1 [.goStmt (.callExpr (.ident "g" .noObj) [])]) =
      .error "not implemented: go") ∧
    (compilePackage Γ spans tags (pkg1 [.labeledStmt "L" .emptyStmt]) =
      .error "not implemented: labels") ∧
    (compilePackage Γ spans tags (pkg1 [.selectStmt (.blockStmt [])]) =
      .error "not implemented: select") ∧
    (compilePackage Γ spans tags (pkg1 [.commClause none []]) =
      .error "not implemented: select case") ∧
    (compilePackage Γ spans tags (pkg1 [.typeSwitchStmt none .emptyStmt (.blockStmt [])]) =
      .error "not implemented: type switch") ∧
    (compilePackage Γ spans tags (pkg1 [.declStmt [("x", 0)]]) =
      .error "not implemented: inline decls") ∧
    (compilePackage Γ spans tags
        (pkg1 [.assignStmt [.ident "x" .noObj, .ident "y" .noObj] .assign
          [.basicLit 1, .basicLit 2]]) =
      .error "not implemented: multiple assign") ∧
    (compilePackage Γ spans tags
        (pkg1 [.assignStmt [.selectorExpr (.ident "a" .noObj) "b"] .assign [.basicLit 1]]) =
      .error "not implemented: assign to non-ident") ∧
    (compilePackage Γ spans tags (pkg1 [.branchStmt .gotoT none]) =
      .error "not implemented: goto") ∧
    (compilePackage Γ spans tags (pkg1 [.branchStmt .fallthroughT none]) =
      .error "not implemented: fallthrough") := by
  have hgate : (gateValidate fn.body).isSome = true :=
    anyStmts_fires gateCtxRejected fn.body none hbad
  obtain ⟨e, he⟩ := compileDecls_error_of_contains Γ spans p.decls fn color hmem hgate
  refine ⟨⟨e, ?_⟩, ?_, rfl, rfl, rfl, rfl, rfl, rfl, rfl, rfl, rfl, rfl, rfl⟩
  · simp only [compilePackage]
    rw [he]
  · rintro ⟨g, hg⟩
    simp only [compilePackage] at hg
    rw [he] at hg
    cases hg

/-- Witness for C9: a package whose colored function contains a defer
statement compiles to an error and no generated file. -/
theorem rejected_constructs_fail_package_witness :
    (∃ e, compilePackage (fun _ => 0) (fun _ => ⟨0, 0⟩) none
        (pkg1 [.deferStmt (.callExpr (.ident "g" .noObj) [])]) = .error e) ∧
    (¬ ∃ g, compilePackage (fun _ => 0) (fun _ => ⟨0, 0⟩) none
        (pkg1 [.deferStmt (.callExpr (.ident "g" .noObj) [])]) = .ok g) :=
  ⟨(rejected_constructs_fail_package (fun _ => 0) (fun _ => ⟨0, 0⟩) none
      (pkg1 [.deferStmt (.callExpr (.ident "g" .noObj) [])])
      ⟨"f", ⟨[], []⟩, [.deferStmt (.callExpr (.ident "g" .noObj) [])]⟩ (0, 0)
      (by simp [pkg1]) rfl).1,
   (rejected_constructs_fail_package (fun _ => 0) (fun _ => ⟨0, 0⟩) none
      (pkg1 [.deferStmt (.callExpr (.ident "g" .noObj) [])])
      ⟨"f", ⟨[], []⟩, [.deferStmt (.callExpr (.ident "g" .noObj) [])]⟩ (0, 0)
      (by simp [pkg1]) rfl).2.1⟩

/-! ## C10: name and signature reuse -/

/-- Every declaration emitted into the generated file is the compiled
form of some colored source declaration. -/
theorem compileDecls_ok_names (Γ : Nat → Ty) (spans : Stmt → Span) :
    ∀ (decls : List (FuncDecl × Option (Ty × Ty))) (ds : List FuncDecl),
      compileDecls Γ spans decls = .ok ds →
      ∀ d ∈ ds, ∃ fn color, (fn, some color) ∈ decls ∧ d = compileFunction Γ spans color fn
  | [], ds, hok => by
    simp only [compileDecls] at hok
    injection hok with h
    subst h
    intro d hd
    simp at hd
  | (g, none) :: rest, ds, hok => by
    simp only [compileDecls] at hok
    intro d hd
    obtain ⟨fn, color, hmem, hdd⟩ := compileDecls_ok_names Γ spans rest ds hok d hd
    exact ⟨fn, color, List.mem_cons_of_mem _ hmem, hdd⟩
  | (g, some color) :: rest, ds, hok => by
    simp only [compileDecls] at hok
    cases hg : gateValidate g.body with
    | some e => rw [hg] at hok; cases hok
    | none =>
      rw [hg] at hok
      cases hr : compileDecls Γ spans rest with
      | error e => rw [hr] at hok; cases hok
      | ok ds2 =>
        rw [hr] at hok
        injection hok with h
        subst h
        intro d hd
        rcases List.mem_cons.mp hd with h | h
        · exact ⟨g, color, List.mem_cons_self _ _, h⟩
        · obtain ⟨fn, col, hmem, hdd⟩ := compileDecls_ok_names Γ spans rest ds2 hr d h
          exact ⟨fn, col, List.mem_cons_of_mem _ hmem, hdd⟩

/-- C10: the rewritten declaration reuses the source function's name
and type signature unchanged (only the body is replaced), and the
generated file declares, in a package of the same name, one declaration
per colored source function with identical name and signature. -/
theorem generated_decl_same_name_signature :
    (∀ (Γ : Nat → Ty) (spans : Stmt → Span) (color : Ty × Ty) (fn : FuncDecl),
      (compileFunction Γ spans color fn).name = fn.name ∧
      (compileFunction Γ spans color fn).type = fn.type) ∧
    (∀ (Γ : Nat → Ty) (spans : Stmt → Span) (tags : Option String) (p : Package)
        (g : GenFile),
      compilePackage Γ spans tags p = .ok g →
      g.pkgName = p.name ∧
      ∀ d ∈ g.decls, ∃ fn color, (fn, some color) ∈ p.decls ∧
        d.name = fn.name ∧ d.type = fn.type) := by
  refine ⟨fun Γ spans color fn => ⟨rfl, rfl⟩, ?_⟩
  intro Γ spans tags p g hok
  simp only [compilePackage] at hok
  cases hd : compileDecls Γ spans p.decls with
  | error e => rw [hd] at hok; cases hok
  | ok ds =>
    rw [hd] at hok
    injection hok with h
    subst h
    refine ⟨rfl, ?_⟩
    intro d hdm
    obtain ⟨fn, color, hmem, hdd⟩ := compileDecls_ok_names Γ spans p.decls ds hd d hdm
    subst hdd
    exact ⟨fn, color, hmem, rfl, rfl⟩

/-- Fixture: a package containing only an uncolored declaration. -/
def pkgNoColor : Package := ⟨"testdata", [(⟨"h", ⟨[], []⟩, []⟩, none)]⟩

/-- Witness for C10 on the concrete package: compilation succeeds and
the generated file carries the same package name. -/
theorem generated_decl_same_name_signature_witness :
    ({ pkgName := "testdata", header := "// Code generated by coroc. DO NOT EDIT",
        buildTags := none, decls := [] } : GenFile).pkgName = pkgNoColor.name :=
  (generated_decl_same_name_signature.2 (fun _ => 0) (fun _ => ⟨0, 0⟩) none pkgNoColor
    { pkgName := "testdata", header := "// Code generated by coroc. DO NOT EDIT",
      buildTags := none, decls := [] } rfl).1

/-! ## C6: the slot plan and the variable rewriting -/

/-- Invariant of the variable scan's state: the map values are exactly
the `varNames` slice in insertion order; the map keys (declaration
object identities) are pairwise distinct; the synthetic names are
`_v0, _v1, ...` in order; and the parallel type slice has the same
length. -/
def ScanWF (st : ScanState) : Prop :=
  st.objectVars.map Prod.snd = st.varNames ∧
  (st.objectVars.map Prod.fst).Nodup ∧
  (∃ n, st.varNames = (List.range n).map vName) ∧
  st.varTypes.length = st.varNames.length

/-- A key on which `lookup` fails is not among the keys. -/
theorem lookup_eq_none_not_mem : ∀ (l : List (Nat × String)) (id : Nat),
    l.lookup id = none → id ∉ l.map Prod.fst
  | [], _, _ => by simp
  | (a, b) :: rest, id, h => by
    simp only [List.lookup] at h
    cases hba : (id == a) with
    | true =>
      rw [hba] at h
      cases h
    | false =>
      rw [hba] at h
      have hne : ¬ id = a := by simpa using hba
      have := lookup_eq_none_not_mem rest id h
      simp only [List.map_cons, List.mem_cons]
      rintro (hc | hc)
      · exact hne hc
      · exact this hc

/-- The assignment-statement callback of the scan preserves the state
invariant: a fresh object receives the next `_v<i>` name and keeps
keys distinct. -/
theorem scanAssignHead_wf (Γ : Nat → Ty) (st : ScanState) (lhs : List Expr)
    (tok : AssignTok) (h : ScanWF st) : ScanWF (scanAssignHead Γ st lhs tok).2 := by
  obtain ⟨h1, h2, ⟨n, hn⟩, h4⟩ := h
  simp only [scanAssignHead]
  cases hh : lhs.head? with
  | none => exact ⟨h1, h2, ⟨n, hn⟩, h4⟩
  | some e0 =>
    cases e0 <;> try exact ⟨h1, h2, ⟨n, hn⟩, h4⟩
    case ident nm obj =>
      cases obj <;> try exact ⟨h1, h2, ⟨n, hn⟩, h4⟩
      case varObj id =>
        by_cases hl : (st.objectVars.lookup id).isSome
        · simp only [hl, if_true]
          exact ⟨h1, h2, ⟨n, hn⟩, h4⟩
        · simp only [hl, Bool.false_eq_true, if_false]
          have hnot : id ∉ st.objectVars.map Prod.fst :=
            lookup_eq_none_not_mem st.objectVars id (Option.not_isSome_iff_eq_none.mp hl)
          have hlen : st.varNames.length = n := by rw [hn]; simp
          refine ⟨by simp [h1], ?_, ⟨n + 1, ?_⟩, by simp [h4]⟩
          · simp only [List.map_append, List.map_cons, List.map_nil]
            rw [List.nodup_append]
            refine ⟨h2, by simp, ?_⟩
            intro a ha hb
            simp only [List.mem_cons, List.not_mem_nil, or_false] at hb
            subst hb
            exact hnot ha
          · rw [hlen, hn, List.range_succ, List.map_append, List.map_cons, List.map_nil]

mutual
/-- The variable scan preserves the state invariant on statements. -/
theorem scanStmt_wf (Γ : Nat → Ty) :
    ∀ (s : Stmt) (st : ScanState), ScanWF st → ScanWF (scanStmt Γ st s).2
  | .declStmt _, _, h => h
  | .emptyStmt, _, h => h
  | .labeledStmt _ s1, st, h => scanStmt_wf Γ s1 st h
  | .exprStmt x, st, h => scanExpr_wf Γ x st h
  | .sendStmt ch v, st, h => scanExpr_wf Γ v _ (scanExpr_wf Γ ch st h)
  | .incDecStmt x, st, h => scanExpr_wf Γ x st h
  | .assignStmt lhs tok rhs, st, h =>
    scanExprs_wf Γ rhs _ (scanExprs_wf Γ lhs _ (scanAssignHead_wf Γ st lhs tok h))
  | .goStmt c, st, h => scanExpr_wf Γ c st h
  | .deferStmt c, st, h => scanExpr_wf Γ c st h
  | .returnStmt rs, st, h => scanExprs_wf Γ rs st h
  | .branchStmt _ _, _, h => h
  | .blockStmt l, st, h => scanStmts_wf Γ l st h
  | .ifStmt ini cond body els, st, h =>
    scanOptStmt_wf Γ els _
      (scanStmt_wf Γ body _ (scanExpr_wf Γ cond _ (scanOptStmt_wf Γ ini st h)))
  | .caseClause gs body, st, h => scanStmts_wf Γ body _ (scanExprs_wf Γ gs st h)
  | .switchStmt ini tag body, st, h =>
    scanStmt_wf Γ body _ (scanOptExpr_wf Γ tag _ (scanOptStmt_wf Γ ini st h))
  | .typeSwitchStmt ini a body, st, h =>
    scanStmt_wf Γ body _ (scanStmt_wf Γ a _ (scanOptStmt_wf Γ ini st h))
  | .commClause comm body, st, h => scanStmts_wf Γ body _ (scanOptStmt_wf Γ comm st h)
  | .selectStmt body, st, h => scanStmt_wf Γ body st h
  | .forStmt ini cond post body, st, h =>
    scanStmt_wf Γ body _
      (scanOptStmt_wf Γ post _ (scanOptExpr_wf Γ cond _ (scanOptStmt_wf Γ ini st h)))
  | .rangeStmt key value x _ body, st, h =>
    scanStmt_wf Γ body _
      (scanExpr_wf Γ x _ (scanOptExpr_wf Γ value _ (scanOptExpr_wf Γ key st h)))

/-- The variable scan preserves the state invariant on expressions. -/
theorem scanExpr_wf (Γ : Nat → Ty) :
    ∀ (x : Expr) (st : ScanState), ScanWF st → ScanWF (scanExpr Γ st x).2
  | .ident _ _, _, h => h
  | .basicLit _, _, h => h
  | .funcLit body, st, h => scanStmts_wf Γ body st h
  | .selectorExpr x _, st, h => scanExpr_wf Γ x st h
  | .callExpr fn args, st, h => scanExprs_wf Γ args _ (scanExpr_wf Γ fn st h)
  | .binaryExpr x _ y, st, h => scanExpr_wf Γ y _ (scanExpr_wf Γ x st h)
  | .typeAssertExpr x _, st, h => scanExpr_wf Γ x st h
  | .indexListExpr x _, st, h => scanExpr_wf Γ x st h

/-- The variable scan preserves the state invariant on statement
lists. -/
theorem scanStmts_wf (Γ : Nat → Ty) :
    ∀ (l : List Stmt) (st : ScanState), ScanWF st → ScanWF (scanStmts Γ st l).2
  | [], _, h => h
  | s :: rest, st, h => scanStmts_wf Γ rest _ (scanStmt_wf Γ s st h)

/-- The variable scan preserves the state invariant on expression
lists. -/
theorem scanExprs_wf (Γ : Nat → Ty) :
    ∀ (l : List Expr) (st : ScanState), ScanWF st → ScanWF (scanExprs Γ st l).2
  | [], _, h => h
  | x :: rest, st, h => scanExprs_wf Γ rest _ (scanExpr_wf Γ x st h)

/-- The variable scan preserves the state invariant on optional
statements. -/
theorem scanOptStmt_wf (Γ : Nat → Ty) :
    ∀ (o : Option Stmt) (st : ScanState), ScanWF st → ScanWF (scanOptStmt Γ st o).2
  | none, _, h => h
  | some s, st, h => scanStmt_wf Γ s st h

/-- The variable scan preserves the state invariant on optional
expressions. -/
theorem scanOptExpr_wf (Γ : Nat → Ty) :
    ∀ (o : Option Expr) (st : ScanState), ScanWF st → ScanWF (scanOptExpr Γ st o).2
  | none, _, h => h
  | some x, st, h => scanExpr_wf Γ x st h
end

/-- An assignment statement whose `:=` token survives: the scan
rewrites every define token it visits, so only this shape can remain. -/
def isDefine : Stmt → Bool
  | .assignStmt _ .define _ => true
  | _ => false

/-- An assignment whose first target is not an identifier (the inline
gate rejects these; on such a statement the source scan would panic
before rewriting the token). -/
def isBadAssign : Stmt → Bool
  | .assignStmt lhs _ _ =>
    (match lhs.head? with
     | some (.ident _ _) => false
     | _ => true)
  | _ => false

/-- On an identifier-headed assignment the scanned token is always the
plain `=`. -/
theorem scanAssignHead_assign (Γ : Nat → Ty) (st : ScanState) (lhs : List Expr)
    (tok : AssignTok) (rhs : List Expr)
    (h : isBadAssign (.assignStmt lhs tok rhs) = false) :
    (scanAssignHead Γ st lhs tok).1 = .assign := by
  simp only [isBadAssign] at h
  cases hh : lhs.head? with
  | none => rw [hh] at h; simp at h
  | some e0 =>
    rw [hh] at h
    cases e0 <;> try simp at h
    case ident nm obj =>
      cases obj <;> cases tok <;> simp only [scanAssignHead, hh] <;> first
        | rfl
        | (split <;> rfl)

mutual
/-- After the scan, no define token remains in a statement whose
assignments are all identifier-headed. -/
theorem scanStmt_noDefine (Γ : Nat → Ty) :
    ∀ (s : Stmt) (st : ScanState),
      anyStmt isBadAssign (fun _ => false) s = false →
      anyStmt isDefine (fun _ => false) (scanStmt Γ st s).1 = false
  | .declStmt _, _, _ => rfl
  | .emptyStmt, _, _ => rfl
  | .labeledStmt _ s1, st, h => by
    rcases Bool.or_eq_false_iff.mp h with ⟨-, hc⟩
    exact Bool.or_eq_false_iff.mpr ⟨rfl, scanStmt_noDefine Γ s1 st hc⟩
  | .exprStmt x, st, h => by
    rcases Bool.or_eq_false_iff.mp h with ⟨-, hc⟩
    exact Bool.or_eq_false_iff.mpr ⟨rfl, scanExpr_noDefine Γ x st hc⟩
  | .sendStmt ch v, st, h => by
    rcases Bool.or_eq_false_iff.mp h with ⟨-, hc⟩
    rcases Bool.or_eq_false_iff.mp hc with ⟨h1, h2⟩
    exact Bool.or_eq_false_iff.mpr ⟨rfl, Bool.or_eq_false_iff.mpr
      ⟨scanExpr_noDefine Γ ch st h1, scanExpr_noDefine Γ v _ h2⟩⟩
  | .incDecStmt x, st, h => by
    rcases Bool.or_eq_false_iff.mp h with ⟨-, hc⟩
    exact Bool.or_eq_false_iff.mpr ⟨rfl, scanExpr_noDefine Γ x st hc⟩
  | .assignStmt lhs tok rhs, st, h => by
    rcases Bool.or_eq_false_iff.mp h with ⟨hbad, hc⟩
    rcases Bool.or_eq_false_iff.mp hc with ⟨h1, h2⟩
    refine Bool.or_eq_false_iff.mpr ⟨?_, Bool.or_eq_false_iff.mpr
      ⟨scanExprs_noDefine Γ lhs _ h1, scanExprs_noDefine Γ rhs _ h2⟩⟩
    show isDefine (.assignStmt
        ((scanExprs Γ (scanAssignHead Γ st lhs tok).2 lhs).1)
        ((scanAssignHead Γ st lhs tok).1)
        ((scanExprs Γ (scanExprs Γ (scanAssignHead Γ st lhs tok).2 lhs).2 rhs).1)) = false
    rw [scanAssignHead_assign Γ st lhs tok rhs hbad]
    rfl
  | .goStmt c, st, h => by
    rcases Bool.or_eq_false_iff.mp h with ⟨-, hc⟩
    exact Bool.or_eq_false_iff.mpr ⟨rfl, scanExpr_noDefine Γ c st hc⟩
  | .deferStmt c, st, h => by
    rcases Bool.or_eq_false_iff.mp h with ⟨-, hc⟩
    exact Bool.or_eq_false_iff.mpr ⟨rfl, scanExpr_noDefine Γ c st hc⟩
  | .returnStmt rs, st, h => by
    rcases Bool.or_eq_false_iff.mp h with ⟨-, hc⟩
    exact Bool.or_eq_false_iff.mpr ⟨rfl, scanExprs_noDefine Γ rs st hc⟩
  | .branchStmt _ _, _, _ => rfl
  | .blockStmt l, st, h => by
    rcases Bool.or_eq_false_iff.mp h with ⟨-, hc⟩
    exact Bool.or_eq_false_iff.mpr ⟨rfl, scanStmts_noDefine Γ l st hc⟩
  | .ifStmt ini cond body els, st, h => by
    rcases Bool.or_eq_false_iff.mp h with ⟨-, hc⟩
    rcases Bool.or_eq_false_iff.mp hc with ⟨h123, h4⟩
    rcases Bool.or_eq_false_iff.mp h123 with ⟨h12, h3⟩
    rcases Bool.or_eq_false_iff.mp h12 with ⟨h1, h2⟩
    exact Bool.or_eq_false_iff.mpr ⟨rfl, Bool.or_eq_false_iff.mpr
      ⟨Bool.or_eq_false_iff.mpr
        ⟨Bool.or_eq_false_iff.mpr
          ⟨scanOptStmt_noDefine Γ ini st h1, scanExpr_noDefine Γ cond _ h2⟩,
          scanStmt_noDefine Γ body _ h3⟩,
        scanOptStmt_noDefine Γ els _ h4⟩⟩
  | .caseClause gs body, st, h => by
    rcases Bool.or_eq_false_iff.mp h with ⟨-, hc⟩
    rcases Bool.or_eq_false_iff.mp hc with ⟨h1, h2⟩
    exact Bool.or_eq_false_iff.mpr ⟨rfl, Bool.or_eq_false_iff.mpr
      ⟨scanExprs_noDefine Γ gs st h1, scanStmts_noDefine Γ body _ h2⟩⟩
  | .switchStmt ini tag body, st, h => by
    rcases Bool.or_eq_false_iff.mp h with ⟨-, hc⟩
    rcases Bool.or_eq_false_iff.mp hc with ⟨h12, h3⟩
    rcases Bool.or_eq_false_iff.mp h12 with ⟨h1, h2⟩
    exact Bool.or_eq_false_iff.mpr ⟨rfl, Bool.or_eq_false_iff.mpr
      ⟨Bool.or_eq_false_iff.mpr
        ⟨scanOptStmt_noDefine Γ ini st h1, scanOptExpr_noDefine Γ tag _ h2⟩,
        scanStmt_noDefine Γ body _ h3⟩⟩
  | .typeSwitchStmt ini a body, st, h => by
    rcases Bool.or_eq_false_iff.mp h with ⟨-, hc⟩
    rcases Bool.or_eq_false_iff.mp hc with ⟨h12, h3⟩
    rcases Bool.or_eq_false_iff.mp h12 with ⟨h1, h2⟩
    exact Bool.or_eq_false_iff.mpr ⟨rfl, Bool.or_eq_false_iff.mpr
      ⟨Bool.or_eq_false_iff.mpr
        ⟨scanOptStmt_noDefine Γ ini st h1, scanStmt_noDefine Γ a _ h2⟩,
        scanStmt_noDefine Γ body _ h3⟩⟩
  | .commClause comm body, st, h => by
    rcases Bool.or_eq_false_iff.mp h with ⟨-, hc⟩
    rcases Bool.or_eq_false_iff.mp hc with ⟨h1, h2⟩
    exact Bool.or_eq_false_iff.mpr ⟨rfl, Bool.or_eq_false_iff.mpr
      ⟨scanOptStmt_noDefine Γ comm st h1, scanStmts_noDefine Γ body _ h2⟩⟩
  | .selectStmt body, st, h => by
    rcases Bool.or_eq_false_iff.mp h with ⟨-, hc⟩
    exact Bool.or_eq_false_iff.mpr ⟨rfl, scanStmt_noDefine Γ body st hc⟩
  | .forStmt ini cond post body, st, h => by
    rcases Bool.or_eq_false_iff.mp h with ⟨-, hc⟩
    rcases Bool.or_eq_false_iff.mp hc with ⟨h123, h4⟩
    rcases Bool.or_eq_false_iff.mp h123 with ⟨h12, h3⟩
    rcases Bool.or_eq_false_iff.mp h12 with ⟨h1, h2⟩
    exact Bool.or_eq_false_iff.mpr ⟨rfl, Bool.or_eq_false_iff.mpr
      ⟨Bool.or_eq_false_iff.mpr
        ⟨Bool.or_eq_false_iff.mpr
          ⟨scanOptStmt_noDefine Γ ini st h1, scanOptExpr_noDefine Γ cond _ h2⟩,
          scanOptStmt_noDefine Γ post _ h3⟩,
        scanStmt_noDefine Γ body _ h4⟩⟩
  | .rangeStmt key value x _ body, st, h => by
    rcases Bool.or_eq_false_iff.mp h with ⟨-, hc⟩
    rcases Bool.or_eq_false_iff.mp hc with ⟨h123, h4⟩
    rcases Bool.or_eq_false_iff.mp h123 with ⟨h12, h3⟩
    rcases Bool.or_eq_false_iff.mp h12 with ⟨h1, h2⟩
    exact Bool.or_eq_false_iff.mpr ⟨rfl, Bool.or_eq_false_iff.mpr
      ⟨Bool.or_eq_false_iff.mpr
        ⟨Bool.or_eq_false_iff.mpr
          ⟨scanOptExpr_noDefine Γ key st h1, scanOptExpr_noDefine Γ value _ h2⟩,
          scanExpr_noDefine Γ x _ h3⟩,
        scanStmt_noDefine Γ body _ h4⟩⟩

/-- After the scan, no define token remains inside an expression. -/
theorem scanExpr_noDefine (Γ : Nat → Ty) :
    ∀ (x : Expr) (st : ScanState),
      anyExpr isBadAssign (fun _ => false) x = false →
      anyExpr isDefine (fun _ => false) (scanExpr Γ st x).1 = false
  | .ident _ _, _, _ => rfl
  | .basicLit _, _, _ => rfl
  | .funcLit body, st, h => by
    rcases Bool.or_eq_false_iff.mp h with ⟨-, hc⟩
    exact Bool.or_eq_false_iff.mpr ⟨rfl, scanStmts_noDefine Γ body st hc⟩
  | .selectorExpr x _, st, h => by
    rcases Bool.or_eq_false_iff.mp h with ⟨-, hc⟩
    exact Bool.or_eq_false_iff.mpr ⟨rfl, scanExpr_noDefine Γ x st hc⟩
  | .callExpr fn args, st, h => by
    rcases Bool.or_eq_false_iff.mp h with ⟨-, hc⟩
    rcases Bool.or_eq_false_iff.mp hc with ⟨h1, h2⟩
    exact Bool.or_eq_false_iff.mpr ⟨rfl, Bool.or_eq_false_iff.mpr
      ⟨scanExpr_noDefine Γ fn st h1, scanExprs_noDefine Γ args _ h2⟩⟩
  | .binaryExpr x _ y, st, h => by
    rcases Bool.or_eq_false_iff.mp h with ⟨-, hc⟩
    rcases Bool.or_eq_false_iff.mp hc with ⟨h1, h2⟩
    exact Bool.or_eq_false_iff.mpr ⟨rfl, Bool.or_eq_false_iff.mpr
      ⟨scanExpr_noDefine Γ x st h1, scanExpr_noDefine Γ y _ h2⟩⟩
  | .typeAssertExpr x _, st, h => by
    rcases Bool.or_eq_false_iff.mp h with ⟨-, hc⟩
    exact Bool.or_eq_false_iff.mpr ⟨rfl, scanExpr_noDefine Γ x st hc⟩
  | .indexListExpr x _, st, h => by
    rcases Bool.or_eq_false_iff.mp h with ⟨-, hc⟩
    exact Bool.or_eq_false_iff.mpr ⟨rfl, scanExpr_noDefine Γ x st hc⟩

/-- After the scan, no define token remains in a statement list. -/
theorem scanStmts_noDefine (Γ : Nat → Ty) :
    ∀ (l : List Stmt) (st : ScanState),
      anyStmts isBadAssign (fun _ => false) l = false →
      anyStmts isDefine (fun _ => false) (scanStmts Γ st l).1 = false
  | [], _, _ => rfl
  | s :: rest, st, h => by
    rcases Bool.or_eq_false_iff.mp h with ⟨h1, h2⟩
    exact Bool.or_eq_false_iff.mpr
      ⟨scanStmt_noDefine Γ s st h1, scanStmts_noDefine Γ rest _ h2⟩

/-- After the scan, no define token remains in an expression list. -/
theorem scanExprs_noDefine (Γ : Nat → Ty) :
    ∀ (l : List Expr) (st : ScanState),
      anyExprs isBadAssign (fun _ => false) l = false →
      anyExprs isDefine (fun _ => false) (scanExprs Γ st l).1 = false
  | [], _, _ => rfl
  | x :: rest, st, h => by
    rcases Bool.or_eq_false_iff.mp h with ⟨h1, h2⟩
    exact Bool.or_eq_false_iff.mpr
      ⟨scanExpr_noDefine Γ x st h1, scanExprs_noDefine Γ rest _ h2⟩

/-- After the scan, no define token remains in an optional statement. -/
theorem scanOptStmt_noDefine (Γ : Nat → Ty) :
    ∀ (o : Option Stmt) (st : ScanState),
      anyOptStmt isBadAssign (fun _ => false) o = false →
      anyOptStmt isDefine (fun _ => false) (scanOptStmt Γ st o).1 = false
  | none, _, _ => rfl
  | some s, st, h => scanStmt_noDefine Γ s st h

/-- After the scan, no define token remains in an optional
expression. -/
theorem scanOptExpr_noDefine (Γ : Nat → Ty) :
    ∀ (o : Option Expr) (st : ScanState),
      anyOptExpr isBadAssign (fun _ => false) o = false →
      anyOptExpr isDefine (fun _ => false) (scanOptExpr Γ st o).1 = false
  | none, _, _ => rfl
  | some x, st, h => scanExpr_noDefine Γ x st h
end

/-- An identifier the replacement pass missed: its object is a key of
`objectVars` but its name is not the recorded synthetic name. -/
def renamedBad (m : List (Nat × String)) : Expr → Bool
  | .ident nm (.varObj id) =>
    (match m.lookup id with
     | some v => decide (¬ nm = v)
     | none => false)
  | _ => false

/-- `isDefine` depends only on the assignment token. -/
theorem isDefine_assign_congr (a b c d : List Expr) (tok : AssignTok) :
    isDefine (.assignStmt a tok b) = isDefine (.assignStmt c tok d) := by
  cases tok <;> rfl

mutual
/-- The replacement pass keeps assignment tokens and leaves no
identifier whose object is mapped with a name other than its synthetic
name (statement level). -/
theorem replaceStmt_props (m : List (Nat × String)) :
    ∀ s : Stmt,
      anyStmt isDefine (fun _ => false) (replaceStmt m s) =
        anyStmt isDefine (fun _ => false) s ∧
      anyStmt (fun _ => false) (renamedBad m) (replaceStmt m s) = false
  | .declStmt _ => ⟨rfl, rfl⟩
  | .emptyStmt => ⟨rfl, rfl⟩
  | .labeledStmt _ s1 => replaceStmt_props m s1
  | .exprStmt x => replaceExpr_props m x
  | .sendStmt ch v => by
    obtain ⟨d1, r1⟩ := replaceExpr_props m ch
    obtain ⟨d2, r2⟩ := replaceExpr_props m v
    exact ⟨congrArg₂ (· || ·) rfl (congrArg₂ (· || ·) d1 d2),
      Bool.or_eq_false_iff.mpr ⟨rfl, Bool.or_eq_false_iff.mpr ⟨r1, r2⟩⟩⟩
  | .incDecStmt x => replaceExpr_props m x
  | .assignStmt lhs tok rhs => by
    obtain ⟨d1, r1⟩ := replaceExprs_props m lhs
    obtain ⟨d2, r2⟩ := replaceExprs_props m rhs
    constructor
    · exact congrArg₂ (· || ·) (isDefine_assign_congr _ _ _ _ tok)
        (congrArg₂ (· || ·) d1 d2)
    · exact Bool.or_eq_false_iff.mpr ⟨rfl, Bool.or_eq_false_iff.mpr ⟨r1, r2⟩⟩
  | .goStmt c => replaceExpr_props m c
  | .deferStmt c => replaceExpr_props m c
  | .returnStmt rs => replaceExprs_props m rs
  | .branchStmt _ _ => ⟨rfl, rfl⟩
  | .blockStmt l => replaceStmts_props m l
  | .ifStmt ini cond body els => by
    obtain ⟨d1, r1⟩ := replaceOptStmt_props m ini
    obtain ⟨d2, r2⟩ := replaceExpr_props m cond
    obtain ⟨d3, r3⟩ := replaceStmt_props m body
    obtain ⟨d4, r4⟩ := replaceOptStmt_props m els
    exact ⟨congrArg₂ (· || ·) rfl
        (congrArg₂ (· || ·) (congrArg₂ (· || ·) (congrArg₂ (· || ·) d1 d2) d3) d4),
      Bool.or_eq_false_iff.mpr ⟨rfl, Bool.or_eq_false_iff.mpr
        ⟨Bool.or_eq_false_iff.mpr ⟨Bool.or_eq_false_iff.mpr ⟨r1, r2⟩, r3⟩, r4⟩⟩⟩
  | .caseClause gs body => by
    obtain ⟨d1, r1⟩ := replaceExprs_props m gs
    obtain ⟨d2, r2⟩ := replaceStmts_props m body
    exact ⟨congrArg₂ (· || ·) rfl (congrArg₂ (· || ·) d1 d2),
      Bool.or_eq_false_iff.mpr ⟨rfl, Bool.or_eq_false_iff.mpr ⟨r1, r2⟩⟩⟩
  | .switchStmt ini tag body => by
    obtain ⟨d1, r1⟩ := replaceOptStmt_props m ini
    obtain ⟨d2, r2⟩ := replaceOptExpr_props m tag
    obtain ⟨d3, r3⟩ := replaceStmt_props m body
    exact ⟨congrArg₂ (· || ·) rfl (congrArg₂ (· || ·) (congrArg₂ (· || ·) d1 d2) d3),
      Bool.or_eq_false_iff.mpr ⟨rfl,
        Bool.or_eq_false_iff.mpr ⟨Bool.or_eq_false_iff.mpr ⟨r1, r2⟩, r3⟩⟩⟩
  | .typeSwitchStmt ini a body => by
    obtain ⟨d1, r1⟩ := replaceOptStmt_props m ini
    obtain ⟨d2, r2⟩ := replaceStmt_props m a
    obtain ⟨d3, r3⟩ := replaceStmt_props m body
    exact ⟨congrArg₂ (· || ·) rfl (congrArg₂ (· || ·) (congrArg₂ (· || ·) d1 d2) d3),
      Bool.or_eq_false_iff.mpr ⟨rfl,
        Bool.or_eq_false_iff.mpr ⟨Bool.or_eq_false_iff.mpr ⟨r1, r2⟩, r3⟩⟩⟩
  | .commClause comm body => by
    obtain ⟨d1, r1⟩ := replaceOptStmt_props m comm
    obtain ⟨d2, r2⟩ := replaceStmts_props m body
    exact ⟨congrArg₂ (· || ·) rfl (congrArg₂ (· || ·) d1 d2),
      Bool.or_eq_false_iff.mpr ⟨rfl, Bool.or_eq_false_iff.mpr ⟨r1, r2⟩⟩⟩
  | .selectStmt body => replaceStmt_props m body
  | .forStmt ini cond post body => by
    obtain ⟨d1, r1⟩ := replaceOptStmt_props m ini
    obtain ⟨d2, r2⟩ := replaceOptExpr_props m cond
    obtain ⟨d3, r3⟩ := replaceOptStmt_props m post
    obtain ⟨d4, r4⟩ := replaceStmt_props m body
    exact ⟨congrArg₂ (· || ·) rfl
        (congrArg₂ (· || ·) (congrArg₂ (· || ·) (congrArg₂ (· || ·) d1 d2) d3) d4),
      Bool.or_eq_false_iff.mpr ⟨rfl, Bool.or_eq_false_iff.mpr
        ⟨Bool.or_eq_false_iff.mpr ⟨Bool.or_eq_false_iff.mpr ⟨r1, r2⟩, r3⟩, r4⟩⟩⟩
  | .rangeStmt key value x _ body => by
    obtain ⟨d1, r1⟩ := replaceOptExpr_props m key
    obtain ⟨d2, r2⟩ := replaceOptExpr_props m value
    obtain ⟨d3, r3⟩ := replaceExpr_props m x
    obtain ⟨d4, r4⟩ := replaceStmt_props m body
    exact ⟨congrArg₂ (· || ·) rfl
        (congrArg₂ (· || ·) (congrArg₂ (· || ·) (congrArg₂ (· || ·) d1 d2) d3) d4),
      Bool.or_eq_false_iff.mpr ⟨rfl, Bool.or_eq_false_iff.mpr
        ⟨Bool.or_eq_false_iff.mpr ⟨Bool.or_eq_false_iff.mpr ⟨r1, r2⟩, r3⟩, r4⟩⟩⟩

/-- The replacement pass keeps assignment tokens and misses no mapped
identifier (expression level). -/
theorem replaceExpr_props (m : List (Nat × String)) :
    ∀ x : Expr,
      anyExpr isDefine (fun _ => false) (replaceExpr m x) =
        anyExpr isDefine (fun _ => false) x ∧
      anyExpr (fun _ => false) (renamedBad m) (replaceExpr m x) = false
  | .ident nm obj => by
    constructor
    · cases obj <;> try rfl
      case varObj id =>
        simp only [replaceExpr]
        cases hm2 : m.lookup id <;> rfl
    · cases obj <;> try rfl
      case varObj id =>
        simp only [replaceExpr]
        cases hm2 : m.lookup id with
        | none => simp [anyExpr, renamedBad, hm2]
        | some v => simp [anyExpr, renamedBad, hm2]
  | .basicLit _ => ⟨rfl, rfl⟩
  | .funcLit body => replaceStmts_props m body
  | .selectorExpr x _ => replaceExpr_props m x
  | .callExpr fn args => by
    obtain ⟨d1, r1⟩ := replaceExpr_props m fn
    obtain ⟨d2, r2⟩ := replaceExprs_props m args
    exact ⟨congrArg₂ (· || ·) rfl (congrArg₂ (· || ·) d1 d2),
      Bool.or_eq_false_iff.mpr ⟨rfl, Bool.or_eq_false_iff.mpr ⟨r1, r2⟩⟩⟩
  | .binaryExpr x _ y => by
    obtain ⟨d1, r1⟩ := replaceExpr_props m x
    obtain ⟨d2, r2⟩ := replaceExpr_props m y
    exact ⟨congrArg₂ (· || ·) rfl (congrArg₂ (· || ·) d1 d2),
      Bool.or_eq_false_iff.mpr ⟨rfl, Bool.or_eq_false_iff.mpr ⟨r1, r2⟩⟩⟩
  | .typeAssertExpr x _ => replaceExpr_props m x
  | .indexListExpr x _ => replaceExpr_props m x

/-- Replacement properties over a statement list. -/
theorem replaceStmts_props (m : List (Nat × String)) :
    ∀ l : List Stmt,
      anyStmts isDefine (fun _ => false) (replaceStmts m l) =
        anyStmts isDefine (fun _ => false) l ∧
      anyStmts (fun _ => false) (renamedBad m) (replaceStmts m l) = false
  | [] => ⟨rfl, rfl⟩
  | s :: rest => by
    obtain ⟨d1, r1⟩ := replaceStmt_props m s
    obtain ⟨d2, r2⟩ := replaceStmts_props m rest
    exact ⟨congrArg₂ (· || ·) d1 d2, Bool.or_eq_false_iff.mpr ⟨r1, r2⟩⟩

/-- Replacement properties over an expression list. -/
theorem replaceExprs_props (m : List (Nat × String)) :
    ∀ l : List Expr,
      anyExprs isDefine (fun _ => false) (replaceExprs m l) =
        anyExprs isDefine (fun _ => false) l ∧
      anyExprs (fun _ => false) (renamedBad m) (replaceExprs m l) = false
  | [] => ⟨rfl, rfl⟩
  | x :: rest => by
    obtain ⟨d1, r1⟩ := replaceExpr_props m x
    obtain ⟨d2, r2⟩ := replaceExprs_props m rest
    exact ⟨congrArg₂ (· || ·) d1 d2, Bool.or_eq_false_iff.mpr ⟨r1, r2⟩⟩

/-- Replacement properties over an optional statement. -/
theorem replaceOptStmt_props (m : List (Nat × String)) :
    ∀ o : Option Stmt,
      anyOptStmt isDefine (fun _ => false) (replaceOptStmt m o) =
        anyOptStmt isDefine (fun _ => false) o ∧
      anyOptStmt (fun _ => false) (renamedBad m) (replaceOptStmt m o) = false
  | none => ⟨rfl, rfl⟩
  | some s => replaceStmt_props m s

/-- Replacement properties over an optional expression. -/
theorem replaceOptExpr_props (m : List (Nat × String)) :
    ∀ o : Option Expr,
      anyOptExpr isDefine (fun _ => false) (replaceOptExpr m o) =
        anyOptExpr isDefine (fun _ => false) o ∧
      anyOptExpr (fun _ => false) (renamedBad m) (replaceOptExpr m o) = false
  | none => ⟨rfl, rfl⟩
  | some x => replaceExpr_props m x
end

/-- In an association list with pairwise-distinct keys, a key
determines its value. -/
theorem nodup_keys_unique_value : ∀ (l : List (Nat × String)) (id : Nat) (v1 v2 : String),
    (l.map Prod.fst).Nodup → (id, v1) ∈ l → (id, v2) ∈ l → v1 = v2
  | [], _, _, _, _, h1, _ => absurd h1 (List.not_mem_nil _)
  | (a, b) :: rest, id, v1, v2, hnd, h1, h2 => by
    simp only [List.map_cons, List.nodup_cons] at hnd
    obtain ⟨hna, hnd⟩ := hnd
    rcases List.mem_cons.mp h1 with h1 | h1 <;> rcases List.mem_cons.mp h2 with h2 | h2
    · rw [Prod.mk.injEq] at h1 h2
      rw [h1.2, h2.2]
    · exfalso
      apply hna
      rw [Prod.mk.injEq] at h1
      rw [← h1.1]
      exact List.mem_map_of_mem Prod.fst h2
    · exfalso
      apply hna
      rw [Prod.mk.injEq] at h2
      rw [← h2.1]
      exact List.mem_map_of_mem Prod.fst h1
    · exact nodup_keys_unique_value rest id v1 v2 hnd h1 h2

/-- C6: the save/restore slot plan of a colored function lists named
parameters, then named results (placeholders skipped via `fieldPairs`),
then the scanned local variables in first-assignment order; the scan
hands out the synthetic names `_v0, _v1, ...` in order, exactly one per
declaration object (keys are object identities and pairwise distinct);
after the replacement pass no `:=` define token remains and every
identifier whose object is mapped carries its synthetic name; and the
generated body declares all slot variables once, upfront, before the
rewritten body.  The hypothesis says every assignment in the body is
identifier-headed, which the inline gate of `compilePackage` has
already enforced (the source would panic on its type assertion
otherwise). -/
theorem slot_plan_and_rewriting (Γ : Nat → Ty) (spans : Stmt → Span)
    (color : Ty × Ty) (fn : FuncDecl)
    (hclean : anyStmts isBadAssign (fun _ => false) (desugar fn.body) = false) :
    planPairs fn (scanStmts Γ initScan (desugar fn.body)).2.varNames
        (scanStmts Γ initScan (desugar fn.body)).2.varTypes =
      fieldPairs fn.type.params ++ fieldPairs fn.type.results ++
        ((scanStmts Γ initScan (desugar fn.body)).2.varNames.zip
          (scanStmts Γ initScan (desugar fn.body)).2.varTypes) ∧
    (scanStmts Γ initScan (desugar fn.body)).2.varNames =
      (List.range (scanStmts Γ initScan (desugar fn.body)).2.objectVars.length).map vName ∧
    (∀ id v1 v2,
        (id, v1) ∈ (scanStmts Γ initScan (desugar fn.body)).2.objectVars →
        (id, v2) ∈ (scanStmts Γ initScan (desugar fn.body)).2.objectVars → v1 = v2) ∧
    anyStmts isDefine (fun _ => false)
      (replaceStmts (scanStmts Γ initScan (desugar fn.body)).2.objectVars
        (scanStmts Γ initScan (desugar fn.body)).1) = false ∧
    anyStmts (fun _ => false)
      (renamedBad (scanStmts Γ initScan (desugar fn.body)).2.objectVars)
      (replaceStmts (scanStmts Γ initScan (desugar fn.body)).2.objectVars
        (scanStmts Γ initScan (desugar fn.body)).1) = false ∧
    (compileFunction Γ spans color fn).body =
      [ctxAssign color, pushAssign] ++
        (if (scanStmts Γ initScan (desugar fn.body)).2.varTypes.length > 0 then
          [Stmt.declStmt ((scanStmts Γ initScan (desugar fn.body)).2.varNames.zip
            ((scanStmts Γ initScan (desugar fn.body)).2.varTypes.map typeExpr))]
         else []) ++
        [restoreIf (planPairs fn (scanStmts Γ initScan (desugar fn.body)).2.varNames
            (scanStmts Γ initScan (desugar fn.body)).2.varTypes),
         deferSave (planPairs fn (scanStmts Γ initScan (desugar fn.body)).2.varNames
            (scanStmts Γ initScan (desugar fn.body)).2.varTypes)] ++
        blockList (compileStatement spans (.blockStmt
          (replaceStmts (scanStmts Γ initScan (desugar fn.body)).2.objectVars
            (scanStmts Γ initScan (desugar fn.body)).1))) := by
  have hwf := scanStmts_wf Γ (desugar fn.body) initScan ⟨rfl, List.nodup_nil, ⟨0, rfl⟩, rfl⟩
  obtain ⟨h1, h2, ⟨n, hn⟩, h4⟩ := hwf
  have hlen : (scanStmts Γ initScan (desugar fn.body)).2.varNames.length = n := by
    rw [hn]; simp
  have hkey : (scanStmts Γ initScan (desugar fn.body)).2.objectVars.length =
      (scanStmts Γ initScan (desugar fn.body)).2.varNames.length := by
    rw [← h1]; simp
  refine ⟨rfl, ?_, ?_, ?_, ?_, rfl⟩
  · rw [hkey, hlen, hn]
  · intro id v1 v2 hv1 hv2
    exact nodup_keys_unique_value _ id v1 v2 h2 hv1 hv2
  · rw [(replaceStmts_props _ _).1]
    exact scanStmts_noDefine Γ (desugar fn.body) initScan hclean
  · exact (replaceStmts_props _ _).2

/-- A concrete two-local function body: `x := 1; y := x`, with the
declaration objects 7 and 9. -/
def fn6 : FuncDecl :=
  ⟨"f6", ⟨[], []⟩,
    [.assignStmt [.ident "x" (.varObj 7)] .define [.basicLit 1],
     .assignStmt [.ident "y" (.varObj 9)] .define [.ident "x" (.varObj 7)]]⟩

/-- A concrete type environment for `fn6`. -/
def gamma6 : Nat → Ty := fun _ => 0

/-- A concrete span assignment for `fn6`. -/
def spans6 : Stmt → Span := fun _ => ⟨0, 0⟩

/-- Witness for C6 at `fn6`: its assignments are identifier-headed,
and after scan and replacement no define token remains in its body. -/
theorem slot_plan_and_rewriting_witness :
    anyStmts isBadAssign (fun _ => false) (desugar fn6.body) = false ∧
    anyStmts isDefine (fun _ => false)
      (replaceStmts (scanStmts gamma6 initScan (desugar fn6.body)).2.objectVars
        (scanStmts gamma6 initScan (desugar fn6.body)).1) = false :=
  ⟨rfl, (slot_plan_and_rewriting gamma6 spans6 (0, 0) fn6 rfl).2.2.2.1⟩

end Coroc
